import Mathlib

/-!
Package `errors`: a shallow embedding

The development follows `errors.go` and `debug_stack.go`.

Modelling conventions.

* A Go `string` is a Lean `String`; `bytes.Buffer` is the `String` written so far.
  `b.Len() == 0` is emptiness, which does not depend on counting bytes or characters.
  Offsets into a string count characters; the only offsets the code computes are those of
  the ASCII separators `.` and `/`, so the slices are the byte slices of the Go code.
* A value of the interface type `error` is `error`: `nil`, a pointer to an `Error`
  struct (`ptr`), or any other error value, which this package observes only through
  the message its `Error()` method returns (`errorString`).  Chains are finite trees,
  so a cyclic chain and a nil `*Error` stored as the cause of a struct are outside the
  model; a nil `*Error` passed to `E` is the argument `Arg.nilError`.
* `Kind` is `uint8`, that is `Fin 256`.
* `uintptr` program counters are natural numbers.  What the Go runtime answers
  (`runtime.CallersFrames`, and the stack `callers()` observes inside `Error()`) is
  a parameter `Runtime`; the stack `callers()` observes inside `E` is an argument of `E`.
* A panic is `Except.error` with the panic message.  What `E` writes to the log in the
  default case of its type switch is not modelled.
* For the effect of `E` on the struct a `*Error` argument points to, `E` is embedded a
  second time over a heap of structs (`EHeap`); `EHeap_refines_E` relates the two.
-/

namespace Errors

/-! ## Data model (`errors.go`) -/

/-- Go `type Kind uint8`. -/
abbrev Kind := Fin 256

/-- Go `type Op string`. -/
abbrev Op := String

abbrev Undefined : Kind := 0
abbrev Timeout : Kind := 1
abbrev IncorrectAuthToken : Kind := 2
abbrev ActionForbidden : Kind := 3
abbrev EntityNotFound : Kind := 4
abbrev MissingFields : Kind := 5
abbrev FieldValidation : Kind := 6
abbrev IncorrectFieldType : Kind := 7
abbrev CachingInProgress : Kind := 8
abbrev IncorrectHTTPRequest : Kind := 9
abbrev ServiceUnavailable : Kind := 10

/-- Go `var Separator = ":\n\t"`. -/
def Separator : String := ":\n\t"

/-- Go `func (k Kind) String() string`. -/
def Kind.String (k : Kind) : String :=
  if k = Undefined then "UNDEF"
  else if k = Timeout then "TO001"
  else if k = IncorrectAuthToken then "AUTH001"
  else if k = ActionForbidden then "AUTH002"
  else if k = EntityNotFound then "F001"
  else if k = MissingFields then "VAL001"
  else if k = FieldValidation then "VAL002"
  else if k = IncorrectFieldType then "VAL003"
  else if k = CachingInProgress then "CIP001"
  else if k = IncorrectHTTPRequest then "HTTP001"
  else if k = ServiceUnavailable then "SVC001"
  else "unknown error kind"

/-- A value of the Go interface type `error`.  `ptr Op Kind Err callers` is a non-nil
`*Error` pointing to a struct with these fields (`callers` is the embedded `stack`);
`errorString s` is any other error value, whose `Error()` returns `s`. -/
inductive error where
  | nil : error
  | errorString (s : String) : error
  | ptr (Op : Op) (Kind : Kind) (Err : error) (callers : List Nat) : error
  deriving DecidableEq, Repr

/-- Go `type Error struct { Op; Kind; Err; stack }`. -/
structure Error where
  Op : Op
  Kind : Kind
  Err : error
  callers : List Nat
  deriving DecidableEq, Repr

/-- The pointer `&e` seen as an `error`. -/
def Error.ref (e : Error) : error := .ptr e.Op e.Kind e.Err e.callers

/-- The type assertion `err.(*Error)`: the struct pointed to, when `err` is a `*Error`. -/
def error.asError : error → Option Error
  | .ptr op k err cs => some ⟨op, k, err, cs⟩
  | _ => none

/-- Go `func (e *Error) isZero() bool`. -/
def Error.isZero (e : Error) : Bool :=
  e.Op == "" && e.Kind == 0 && e.Err == error.nil

/-- Go `func Str(text string) error`. -/
def Str (text : String) : error := .errorString text

/-- Go `func Errorf(format string, args ...interface{}) error`, applied to the text
`fmt.Sprintf(format, args...)` has produced. -/
def Errorf (formatted : String) : error := .errorString formatted

/-- Go `func appendStrToBuf(b *bytes.Buffer, str string)`: the buffer afterwards. -/
def appendStrToBuf (b : String) (str : String) : String :=
  if b.length = 0 then b else b ++ str

/-! ## Stack capture and printing (`debug_stack.go`) -/

/-- The fields of a `runtime.Frame` that `printStack` reads; `Name` is `Func.Name()`. -/
structure Frame where
  File : String
  Line : Int
  Name : String
  deriving DecidableEq, Repr

/-- The zero `runtime.Frame`. -/
def Frame.zero : Frame := ⟨"", 0, ""⟩

/-- What the Go runtime answers.  `CallersFrames cs` is the sequence of frames that
`runtime.CallersFrames(cs)` yields through `Next`; `printCallers d` is the stack that
`callers()` captures inside the `Error()` call at nesting depth `d` of a rendering. -/
structure Runtime where
  CallersFrames : List Nat → List Frame
  printCallers : Nat → List Nat

/-- One call of `(*runtime.Frames).Next`: the frame, the `more` flag, the iterator left. -/
def Frames.Next : List Frame → Frame × Bool × List Frame
  | [] => (Frame.zero, false, [])
  | f :: rest => (f, !rest.isEmpty, rest)

/-- The loop of `frame`: `k` iterations are left (`k = i - n + 1`). -/
def frameLoop : Nat → List Frame → Frame → Frame
  | 0, _, f => f
  | k + 1, frames, _ =>
    match Frames.Next frames with
    | (f, ok, frames') => if !ok then f else frameLoop k frames' f

/-- Go `func frame(callers []uintptr, n int) runtime.Frame`: the loop runs `i` from
`len(callers)-1` down to `n`. -/
def frame (rt : Runtime) (callers : List Nat) (n : Nat) : Frame :=
  frameLoop (callers.length - n) (rt.CallersFrames callers) Frame.zero

/-- Go `strings.IndexAny(s, "./")`: the offset of the first `.` or `/`, if any. -/
def indexAny : List Char → Option Nat
  | [] => none
  | c :: cs => if c = '.' ∨ c = '/' then some 0 else (indexAny cs).map (· + 1)

/-- The `trim` loop of `printStack`.  Each round moves `trim` past one separator, so
`fuel = len(name) + 1` rounds are never used up. -/
def trimLoop (prev name : List Char) : Nat → Nat → Nat
  | 0, trim => trim
  | fuel + 1, trim =>
    match indexAny (name.drop trim) with
    | none => trim
    | some j =>
      if !(name.take (j + trim)).isPrefixOf prev then trim
      else trimLoop prev name fuel (trim + (j + 1))

/-- The value of `trim` when the inner loop of `printStack` ends. -/
def trimOf (prev name : String) : Nat :=
  trimLoop prev.data name.data (name.length + 1) 0

/-- The main loop of `printStack`, with `rem = len(e.callers) - i` iterations left. -/
def printStackLoop (rt : Runtime) (callers printCallers : List Nat) :
    Nat → Nat → String → Bool → String → String
  | 0, _, _, _, b => b
  | rem + 1, i, prev, diff, b =>
    let thisFrame := frame rt callers i
    let name := thisFrame.Name
    if !diff && decide (i < printCallers.length) && name == (frame rt printCallers i).Name then
      printStackLoop rt callers printCallers rem (i + 1) prev diff b
    else
      let diff := if !diff && decide (i < printCallers.length) then true else diff
      if name == prev then
        printStackLoop rt callers printCallers rem (i + 1) prev diff b
      else
        let trim := trimOf prev name
        let b := appendStrToBuf b Separator
        let b := b ++ thisFrame.File ++ ":" ++ toString thisFrame.Line ++ ": "
        let b := if trim > 0 then b ++ "..." else b
        let b := b ++ String.mk (name.data.drop trim)
        printStackLoop rt callers printCallers rem (i + 1) name diff b

/-- Go `func (e *Error) printStack(b *bytes.Buffer)`: the buffer afterwards, for the
rendering at nesting depth `d`. -/
def printStack (rt : Runtime) (d : Nat) (callers : List Nat) (b : String) : String :=
  printStackLoop rt callers (rt.printCallers d) callers.length 0 "" false b

/-- The counting loop of `populateStack` over `a = e.callers` and `b = e2.callers`, with
`rem = min(len a, len b) - i` iterations left; the result is the final `(i, ok)`.  The
source indexes `e.callers` on both sides of the comparison. -/
def populateLoop (a b : List Nat) : Nat → Nat → Bool → Except String (Nat × Bool)
  | 0, i, ok => .ok (i, ok)
  | rem + 1, i, ok =>
    match a[a.length - 1 - i]?, a[b.length - 1 - i]? with
    | some x, some y =>
      if x ≠ y then .ok (i, ok) else populateLoop a b rem (i + 1) true
    | _, _ => .error "index out of range"

/-- Go `func (e *Error) populateStack()`, where `stk` is what `callers()` returns: the
struct afterwards, or the panic of an index out of range. -/
def Error.populateStack (stk : List Nat) (e : Error) : Except String Error :=
  let e := { e with callers := stk }
  match e.Err.asError with
  | none => .ok e
  | some e2 =>
    match populateLoop e.callers e2.callers (min e.callers.length e2.callers.length) 0 false with
    | .error p => .error p
    | .ok _ => .ok e

/-! ## Construction (`E`) -/

/-- One argument of `E(args ...interface{})`, by the case of the type switch it takes.
`error e` is an argument holding an error value (`nil` takes the default case);
`nilError` is a nil pointer of type `*Error`, which takes the case `*Error`;
`other T v` is a value of any other type, with its `%T` and `%v` renderings. -/
inductive Arg where
  | Op (o : Op) : Arg
  | string (s : String) : Arg
  | Kind (k : Kind) : Arg
  | error (e : error) : Arg
  | nilError : Arg
  | other (T v : String) : Arg
  deriving DecidableEq, Repr

/-- The message of the run-time panic of a load through a nil pointer. -/
def nilDereference : String := "invalid memory address or nil pointer dereference"

/-- Go `fmt.Sprintf("unknown type %T, value %v in error call", arg, arg)`. -/
def unknownTypeText (T v : String) : String :=
  "unknown type " ++ T ++ ", value " ++ v ++ " in error call"

/-- The `for _, arg := range args` loop of `E`: either the value of the early `return`
of the default case (`Sum.inl`) or the struct `e` after the loop (`Sum.inr`).  The copy
`eCopy := *arg` of the case `*Error` panics on a nil pointer (`Except.error`). -/
def argsLoop : List Arg → Error → Except String (Sum error Error)
  | [], e => .ok (.inr e)
  | .Op o :: rest, e => argsLoop rest { e with Op := o }
  | .string s :: rest, e => argsLoop rest { e with Err := Str s }
  | .Kind k :: rest, e => argsLoop rest { e with Kind := k }
  | .error (.ptr op k err cs) :: rest, e => argsLoop rest { e with Err := .ptr op k err cs }
  | .error (.errorString s) :: rest, e => argsLoop rest { e with Err := .errorString s }
  | .error .nil :: _, _ => .ok (.inl (Errorf (unknownTypeText "<nil>" "<nil>")))
  | .nilError :: _, _ => .error nilDereference
  | .other T v :: _, _ => .ok (.inl (Errorf (unknownTypeText T v)))

/-- Lines 111-124 of `E`: the kind normalisation of the new node `e` against its
cause `prev`; the result is the pair `(e, prev)` afterwards. -/
def normalise (e prev : Error) : Error × Error :=
  let prev := if prev.Kind = e.Kind then { prev with Kind := Undefined } else prev
  if e.Kind = Undefined then
    ({ e with Kind := prev.Kind }, { prev with Kind := Undefined })
  else (e, prev)

/-- Go `func E(args ...interface{}) error`, with `stk` the stack `callers()` captures
in this call.  `Except.error` is a panic. -/
def E (stk : List Nat) (args : List Arg) : Except String error :=
  if args.length = 0 then .error "call to errors.E with no arguments"
  else
    match argsLoop args ⟨"", 0, .nil, []⟩ with
    | .error p => .error p
    | .ok (.inl leaf) => .ok leaf
    | .ok (.inr e) =>
      match e.populateStack stk with
      | .error p => .error p
      | .ok e =>
        match e.Err.asError with
        | none => .ok e.ref
        | some prev =>
          let (e, prev) := normalise e prev
          .ok ({ e with Err := prev.ref }).ref

/-! ## Rendering (`Error`) -/

/-- The body of `func (e *Error) Error()` up to the final `b.Len() == 0` test: the
buffer `b` at that point, at nesting depth `d`, where `causeText` is what the call
`e.Err.Error()` returns. -/
def Error.buffer (rt : Runtime) (d : Nat) (e : Error) (causeText : String) : String :=
  let b := printStack rt d e.callers ""
  let b := if e.Op ≠ "" then appendStrToBuf b ": " ++ e.Op else b
  let b := if e.Kind ≠ 0 then appendStrToBuf b ": " ++ Kind.String e.Kind else b
  if e.Err ≠ .nil then
    match e.Err.asError with
    | some prevErr =>
      if !prevErr.isZero then appendStrToBuf b Separator ++ causeText else b
    | none => appendStrToBuf b ": " ++ causeText
  else b

/-- Go `err.Error()` at nesting depth `d`: `func (e *Error) Error() string` on a
`*Error` and `func (e errorString) Error() string` on another error.  The `nil` case is
never called: every call site tests `Err != nil` first. -/
def error.Error (rt : Runtime) : Nat → error → String
  | _, .nil => ""
  | _, .errorString s => s
  | d, .ptr op kind err callers =>
    let b := Error.buffer rt d ⟨op, kind, err, callers⟩ (error.Error rt (d + 1) err)
    if b.length = 0 then "no error" else b

/-! ## Matching (`Match`) and kind lookup (`Is`) -/

/-- Go `func Is(kind Kind, err error) bool`. -/
def Is (kind : Kind) : error → Bool
  | .ptr _ k err _ =>
    if k ≠ Undefined then k == kind
    else if err ≠ .nil then Is kind err
    else false
  | _ => false

/-- Go `func Match(err1, err2 error) bool`; `rt` serves the call `e2.Err.Error()`. -/
def Match (rt : Runtime) : error → error → Bool
  | .ptr op1 k1 err1 _, .ptr op2 k2 err2 _ =>
    if op1 ≠ "" && op2 ≠ op1 then false
    else if k1 ≠ Undefined && k2 ≠ k1 then false
    else if err1 ≠ .nil then
      match err1.asError with
      | some _ => Match rt err1 err2
      | none =>
        if err2 = .nil || error.Error rt 0 err2 ≠ error.Error rt 0 err1 then false
        else true
    else true
  | _, _ => false

/-! ## Vocabulary of the statements -/

/-- The kind given in an argument list: the last `Kind` argument, `Undefined` if none. -/
def givenKind (args : List Arg) : Kind :=
  args.foldl (fun acc a => match a with | .Kind k => k | _ => acc) Undefined

/-- The operation label given in an argument list: the last `Op` argument, empty if none. -/
def givenOp (args : List Arg) : Op :=
  args.foldl (fun acc a => match a with | .Op o => o | _ => acc) ""

/-- The cause given in an argument list: the last string or error argument, `nil` if
none. -/
def givenCause (args : List Arg) : error :=
  args.foldl (fun acc a => match a with | .string s => Str s | .error e => e | _ => acc) .nil

/-- A structured error: a `*Error`. -/
def error.isStructured : error → Bool
  | .ptr _ _ _ _ => true
  | _ => false

/-- The operation label of a structured error (empty otherwise). -/
def error.op : error → Op
  | .ptr o _ _ _ => o
  | _ => ""

/-- The kind of a structured error (`Undefined` otherwise). -/
def error.kind : error → Kind
  | .ptr _ k _ _ => k
  | _ => Undefined

/-- The cause of a structured error (`nil` otherwise). -/
def error.cause : error → error
  | .ptr _ _ err _ => err
  | _ => .nil

/-- The captured stack of a structured error (empty otherwise). -/
def error.callers : error → List Nat
  | .ptr _ _ _ cs => cs
  | _ => []

/-- The kinds of the structured nodes met walking from `err` down the chain of causes,
up to the first cause that is a leaf or absent. -/
def chainKinds : error → List Kind
  | .ptr _ k err _ => k :: chainKinds err
  | _ => []

/-- The resolved kind of an error: the first kind different from `Undefined` met walking
down the chain of structured causes, if there is one. -/
def resolvedKind (err : error) : Option Kind :=
  (chainKinds err).find? (fun k => k ≠ Undefined)

/-- Whether the template `t` is the candidate `c` with some of its fields cleared, at any
depth: each operation is kept or emptied, each kind is kept or set to `Undefined`, each
cause is kept (cleared in turn when it is structured) or removed.  Frames are not
compared. -/
def clearedFrom : error → error → Bool
  | .ptr op1 k1 err1 _, .ptr op2 k2 err2 _ =>
    (op1 == "" || op1 == op2) && (k1 == Undefined || k1 == k2) &&
      (err1 == .nil || (if err1.isStructured then clearedFrom err1 err2 else err1 == err2))
  | _, _ => false

/-- The number of positions of `s` at which `pat` occurs. -/
def occurrences (pat : List Char) : List Char → Nat
  | [] => if pat = [] then 1 else 0
  | c :: cs => (if pat.isPrefixOf (c :: cs) then 1 else 0) + occurrences pat cs

/-- The number of positions of the string `s` at which the string `pat` occurs. -/
def countOf (pat s : String) : Nat := occurrences pat.data s.data

/-- A sample runtime: program counter `1` is in `runtime.goexit`, `7` in `runtime.main`,
`200` in `errors.(*Error).Error`, any other in `main.main`; every rendering starts in
`main.main`, the call at depth `d` being `d` calls of `Error()` deeper. -/
def sampleRuntime : Runtime where
  CallersFrames := fun cs => cs.map fun pc =>
    if pc = 1 then ⟨"proc.go", 1, "runtime.goexit"⟩
    else if pc = 7 then ⟨"proc.go", 7, "runtime.main"⟩
    else if pc = 200 then ⟨"errors.go", 151, "errors.(*Error).Error"⟩
    else ⟨"main.go", pc, "main.main"⟩
  printCallers := fun d => List.replicate d 200 ++ [103, 7, 1]

/-- Closed form of the node `E` returns for the struct `e` left by the argument loop
(used to state the lemmas on `E`; `E_of_populate` relates it to `E`). -/
def built (stk : List Nat) (e : Error) : error :=
  match e.Err with
  | .ptr op p err cs =>
    .ptr e.Op (if e.Kind = Undefined then p else e.Kind)
      (.ptr op (if e.Kind = Undefined ∨ p = e.Kind then Undefined else p) err cs) stk
  | cause => .ptr e.Op e.Kind cause stk

/-- Whether an argument is a value of one of the recognised cases of the type switch of
`E`: an `Op`, a string, a `Kind`, a `*Error` pointing to a struct or another error
value. -/
def Arg.recognised : Arg → Bool
  | .Op _ => true
  | .string _ => true
  | .Kind _ => true
  | .error .nil => false
  | .error _ => true
  | .nilError => false
  | .other _ _ => false

/-- A chain of structured nodes with empty operation and kind `Undefined`, one node for
each captured stack of the list, the last node having no cause. -/
def zeroTail : List (List Nat) → error
  | [] => .nil
  | cs :: rest => .ptr "" Undefined (zeroTail rest) cs

/-- Whether no frame is printed for any structured node of the chain of `err`, the first
node being rendered at nesting depth `d`. -/
def silent (rt : Runtime) : Nat → error → Bool
  | d, .ptr _ _ err cs => decide (printStack rt d cs "" = "") && silent rt (d + 1) err
  | _, _ => true

/-- The operation label an argument gives, if it is an `Op`. -/
def Arg.op? : Arg → Option Errors.Op
  | .Op o => some o
  | _ => none

/-- The kind an argument gives, if it is a `Kind`. -/
def Arg.kind? : Arg → Option Errors.Kind
  | .Kind k => some k
  | _ => none

/-- The cause an argument gives, if it is a string or an error value. -/
def Arg.cause? : Arg → Option Errors.error
  | .string s => some (Str s)
  | .error e => some e
  | _ => none

/-- The length of the longest common beginning of two sequences. -/
def commonPrefixLen : List Nat → List Nat → Nat
  | x :: xs, y :: ys => if x = y then commonPrefixLen xs ys + 1 else 0
  | _, _ => 0

/-- The length of the longest common suffix of `a` and `b`: the largest `n` with
`a[len a - 1 - j] = b[len b - 1 - j]` for every `j < n`. -/
def commonSuffixLen (a b : List Nat) : Nat :=
  commonPrefixLen a.reverse b.reverse

/-! ## Construction with pointers: `E` over a heap

The definitions above take a `*Error` argument as the value it points to.  To state what
`E` does to the struct an argument points to, `E` is embedded a second time over a heap
of `Error` structs: a pointer is an address, the copy `eCopy := *arg` allocates a struct,
and the assignments to `prev.Kind` and `e.Kind` are writes at an address. -/

/-- A value of the interface type `error` over a heap: `nil`, another error value with
its message, or a `*Error` with the address it holds.  An address outside the heap is a
nil pointer. -/
inductive Ref where
  | nil : Ref
  | leaf (s : String) : Ref
  | addr (a : Nat) : Ref
  deriving DecidableEq, Repr

/-- An `Error` struct stored in the heap. -/
structure Cell where
  Op : Op
  Kind : Kind
  Err : Ref
  callers : List Nat
  deriving DecidableEq, Repr

/-- The heap: the struct at address `a` is the element of index `a`; an allocation
appends a struct. -/
abbrev Heap := List Cell

/-- A write to the struct at address `a`. -/
def Heap.update (h : Heap) (a : Nat) (f : Cell → Cell) : Heap :=
  match h[a]? with
  | some c => h.set a (f c)
  | none => h

/-- The field `Kind` of the struct at address `a`. -/
def Heap.kindAt (h : Heap) (a : Nat) : Kind :=
  match h[a]? with
  | some c => c.Kind
  | none => Undefined

/-- One argument of `E` over a heap, by the case of the type switch it takes. -/
inductive HArg where
  | Op (o : Op) : HArg
  | string (s : String) : HArg
  | Kind (k : Kind) : HArg
  | error (r : Ref) : HArg
  | other (T v : String) : HArg
  deriving DecidableEq, Repr

/-- The `for _, arg := range args` loop of `E` over a heap, `ea` being the address of
`e`: the heap afterwards, with the value of the early `return` of the default case if it
is taken.  Dereferencing a nil `*Error` panics. -/
def heapArgsLoop (ea : Nat) : List HArg → Heap → Except String (Heap × Option Ref)
  | [], h => .ok (h, none)
  | .Op o :: rest, h => heapArgsLoop ea rest (h.update ea fun c => { c with Op := o })
  | .string s :: rest, h =>
    heapArgsLoop ea rest (h.update ea fun c => { c with Err := .leaf s })
  | .Kind k :: rest, h => heapArgsLoop ea rest (h.update ea fun c => { c with Kind := k })
  | .error (.addr a) :: rest, h =>
    match h[a]? with
    | none => .error "invalid memory address or nil pointer dereference"
    | some eCopy =>
      heapArgsLoop ea rest ((h ++ [eCopy]).update ea fun c => { c with Err := .addr h.length })
  | .error (.leaf s) :: rest, h =>
    heapArgsLoop ea rest (h.update ea fun c => { c with Err := .leaf s })
  | .error .nil :: _, h => .ok (h, some (.leaf (unknownTypeText "<nil>" "<nil>")))
  | .other T v :: _, h => .ok (h, some (.leaf (unknownTypeText T v)))

/-- Lines 116-123 of `E` over a heap: the writes to `prev.Kind` and `e.Kind`, with `ea`
the address of `e` and `p` the address of `prev`. -/
def heapNormalise (h : Heap) (ea p : Nat) : Heap :=
  let h := if h.kindAt p = h.kindAt ea then h.update p fun c => { c with Kind := Undefined }
           else h
  if h.kindAt ea = Undefined then
    let h := h.update ea fun c => { c with Kind := h.kindAt p }
    h.update p fun c => { c with Kind := Undefined }
  else h

/-- Go `func E(args ...interface{}) error` over the heap `h`, with `stk` the stack
`callers()` captures: the heap afterwards and the value returned. -/
def EHeap (h : Heap) (stk : List Nat) (args : List HArg) : Except String (Heap × Ref) :=
  if args.length = 0 then .error "call to errors.E with no arguments"
  else
    let ea := h.length
    match heapArgsLoop ea args (h ++ [⟨"", 0, .nil, []⟩]) with
    | .error m => .error m
    | .ok (h, some leaf) => .ok (h, leaf)
    | .ok (h, none) =>
      let h := h.update ea fun c => { c with callers := stk }
      match h[ea]? with
      | some ⟨_, _, .addr p, _⟩ =>
        match h[p]? with
        | none => .error "invalid memory address or nil pointer dereference"
        | some e2 =>
          match populateLoop stk e2.callers (min stk.length e2.callers.length) 0 false with
          | .error m => .error m
          | .ok _ => .ok (heapNormalise h ea p, .addr ea)
      | _ => .ok (h, .addr ea)

/-- The error value a heap holds behind `r`, followed through at most `fuel` pointers. -/
def Heap.read (h : Heap) : Nat → Ref → error
  | _, .nil => .nil
  | _, .leaf s => .errorString s
  | 0, .addr _ => .nil
  | fuel + 1, .addr a =>
    match h[a]? with
    | some c => .ptr c.Op c.Kind (Heap.read h fuel c.Err) c.callers
    | none => .nil

/-- In the heap `h` the interface value `r` stands for the error value `v`, through
structs at addresses below `n`. -/
inductive Repr (n : Nat) (h : Heap) : Ref → error → Prop where
  | nil : Repr n h .nil .nil
  | leaf (s : String) : Repr n h (.leaf s) (.errorString s)
  | addr (a : Nat) (c : Cell) (v : error) : a < n → h[a]? = some c → Repr n h c.Err v →
      Repr n h (.addr a) (.ptr c.Op c.Kind v c.callers)

/-- An argument over the heap `h` stands for an argument by value. -/
inductive ArgRepr (n : Nat) (h : Heap) : HArg → Arg → Prop where
  | Op (o : Errors.Op) : ArgRepr n h (.Op o) (.Op o)
  | string (s : String) : ArgRepr n h (.string s) (.string s)
  | Kind (k : Errors.Kind) : ArgRepr n h (.Kind k) (.Kind k)
  | error (r : Ref) (v : Errors.error) : Repr n h r v → ArgRepr n h (.error r) (.error v)
  | other (T v : String) : ArgRepr n h (.other T v) (.other T v)

/-- The cause `r` of the struct `e` under construction stands for the value `v`: it is
nil, a leaf, or the address above `n` of a copy of a struct of the initial heap `h`. -/
def CauseRel (n : Nat) (h hc : Heap) (r : Ref) (v : error) : Prop :=
  match r with
  | .nil => v = .nil
  | .leaf s => v = .errorString s
  | .addr p => n < p ∧ ∃ cp v', hc[p]? = some cp ∧ v = .ptr cp.Op cp.Kind v' cp.callers ∧
      Repr n h cp.Err v'

/-- The heap `hc`, grown from the initial heap `h` of length `n`, holds at address `n`
the struct `e` of the construction by value. -/
def Sim (n : Nat) (h hc : Heap) (e : Error) : Prop :=
  n < hc.length ∧ (∀ a, a < n → hc[a]? = h[a]?) ∧
    ∃ c, hc[n]? = some c ∧ c.Op = e.Op ∧ c.Kind = e.Kind ∧ c.callers = e.callers ∧
      CauseRel n h hc c.Err e.Err

end Errors

namespace Errors

/-! ## Lemmas on construction -/

theorem normalise_eq (e prev : Error) :
    normalise e prev =
      ({ e with Kind := if e.Kind = Undefined then prev.Kind else e.Kind },
       { prev with Kind := if e.Kind = Undefined ∨ prev.Kind = e.Kind then Undefined
                           else prev.Kind }) := by
  unfold normalise
  by_cases h1 : prev.Kind = e.Kind <;> by_cases h2 : e.Kind = Undefined <;> simp_all

theorem populateLoop_ok (a b : List Nat) (hb : b.length ≤ a.length) :
    ∀ (rem i : Nat) (ok : Bool), i + rem ≤ a.length →
      ∃ r, populateLoop a b rem i ok = .ok r := by
  intro rem
  induction rem with
  | zero => intro i ok _; exact ⟨(i, ok), rfl⟩
  | succ n ih =>
    intro i ok hi
    have h1 : a.length - 1 - i < a.length := by omega
    have h2 : b.length - 1 - i < a.length := by omega
    unfold populateLoop
    rw [List.getElem?_eq_getElem h1, List.getElem?_eq_getElem h2]
    simp only
    split
    · exact ⟨_, rfl⟩
    · exact ih (i + 1) true (by omega)

theorem populateLoop_zero (a b : List Nat) (i : Nat) (ok : Bool) :
    populateLoop a b 0 i ok = .ok (i, ok) := rfl

/-- The stack loop of `populateStack` stays in range when the new stack is empty or at
least as long as the stack of the cause. -/
theorem populateStack_ok (stk : List Nat) (e : Error)
    (h : stk.length = 0 ∨ e.Err.callers.length ≤ stk.length) :
    e.populateStack stk = .ok { e with callers := stk } := by
  unfold Error.populateStack
  cases hE : e.Err with
  | nil => simp [error.asError]
  | errorString s => simp [error.asError]
  | ptr op k err cs =>
    simp only [error.asError]
    rcases h with h | h
    · have : min stk.length cs.length = 0 := by omega
      rw [this, populateLoop_zero]
    · have hcs : cs.length ≤ stk.length := by simpa [hE, error.callers] using h
      obtain ⟨r, hr⟩ := populateLoop_ok stk cs hcs (min stk.length cs.length) 0 false (by omega)
      rw [hr]

theorem populateStack_callers (stk : List Nat) (e e' : Error)
    (h : e.populateStack stk = .ok e') : e' = { e with callers := stk } := by
  simp only [Error.populateStack] at h
  split at h
  · simpa using h.symm
  · split at h
    · simp at h
    · simpa using h.symm

theorem argsLoop_inr : ∀ (args : List Arg) (e0 e : Error), argsLoop args e0 = .ok (.inr e) →
    e.Op = args.foldl (fun acc a => match a with | .Op o => o | _ => acc) e0.Op ∧
    e.Kind = args.foldl (fun acc a => match a with | .Kind k => k | _ => acc) e0.Kind ∧
    e.Err = args.foldl
      (fun acc a => match a with | .string s => Str s | .error e => e | _ => acc) e0.Err ∧
    e.callers = e0.callers := by
  intro args
  induction args with
  | nil =>
    intro e0 e h
    simp only [argsLoop, Except.ok.injEq, Sum.inr.injEq] at h
    subst h; simp
  | cons a rest ih =>
    intro e0 e h
    cases a with
    | Op o => simpa [argsLoop] using ih _ e (by simpa [argsLoop] using h)
    | string s => simpa [argsLoop] using ih _ e (by simpa [argsLoop] using h)
    | Kind k => simpa [argsLoop] using ih _ e (by simpa [argsLoop] using h)
    | error x =>
      cases x with
      | nil => simp [argsLoop] at h
      | errorString s => simpa [argsLoop] using ih _ e (by simpa [argsLoop] using h)
      | ptr op k err cs => simpa [argsLoop] using ih _ e (by simpa [argsLoop] using h)
    | nilError => simp [argsLoop] at h
    | other T v => simp [argsLoop] at h

/-- After the argument loop the struct holds the given operation, kind and cause. -/
theorem argsLoop_given (args : List Arg) (e : Error)
    (h : argsLoop args ⟨"", 0, .nil, []⟩ = .ok (.inr e)) :
    e = ⟨givenOp args, givenKind args, givenCause args, []⟩ := by
  obtain ⟨h1, h2, h3, h4⟩ := argsLoop_inr args _ e h
  cases e
  simp only [Error.mk.injEq]
  exact ⟨h1, h2, h3, h4⟩

theorem E_of_populate (stk : List Nat) (args : List Arg) (e : Error) (hne : args ≠ [])
    (hloop : argsLoop args ⟨"", 0, .nil, []⟩ = .ok (.inr e))
    (hpop : e.populateStack stk = .ok { e with callers := stk }) :
    E stk args = .ok (built stk e) := by
  have hlen : ¬ args.length = 0 := by simpa using hne
  simp only [E, hlen, if_false, hloop, hpop, built]
  cases hE : e.Err with
  | nil => simp [error.asError, Error.ref, hE]
  | errorString s => simp [error.asError, Error.ref, hE]
  | ptr op k err cs => simp [error.asError, Error.ref, hE, normalise_eq]

/-- A call of `E` that returns either took the default case of the type switch and
returns its leaf, or returns the node `built` from the struct of the argument loop. -/
theorem E_ok_inv (stk : List Nat) (args : List Arg) (r : error) (h : E stk args = .ok r) :
    args ≠ [] ∧
    (argsLoop args ⟨"", 0, .nil, []⟩ = .ok (.inl r) ∨
      ∃ e, argsLoop args ⟨"", 0, .nil, []⟩ = .ok (.inr e) ∧ r = built stk e) := by
  have hne : args ≠ [] := by
    rintro rfl
    simp [E] at h
  refine ⟨hne, ?_⟩
  have hlen : ¬ args.length = 0 := by simpa using hne
  rcases hloop : argsLoop args ⟨"", 0, .nil, []⟩ with p | leaf | e
  · simp [E, hlen, hloop] at h
  · left
    simp only [E, hlen, if_false, hloop, Except.ok.injEq] at h
    rw [h]
  · right
    refine ⟨e, rfl, ?_⟩
    cases hpop : e.populateStack stk with
    | error p => simp [E, hlen, hloop, hpop] at h
    | ok e' =>
      have := populateStack_callers stk e e' hpop
      subst this
      have h2 := E_of_populate stk args e hne hloop hpop
      rw [h] at h2
      exact (Except.ok.inj h2)

/-- With every argument recognised, `E` returns as soon as the stack loop stays in
range. -/
theorem E_ok (stk : List Nat) (args : List Arg) (e : Error) (hne : args ≠ [])
    (hloop : argsLoop args ⟨"", 0, .nil, []⟩ = .ok (.inr e))
    (hfit : stk.length = 0 ∨ e.Err.callers.length ≤ stk.length) :
    E stk args = .ok (built stk e) :=
  E_of_populate stk args e hne hloop (populateStack_ok stk e hfit)

theorem argsLoop_inl : ∀ (args : List Arg) (e0 : Error) (r : error),
    argsLoop args e0 = .ok (.inl r) → r.isStructured = false := by
  intro args
  induction args with
  | nil => intro e0 r h; simp [argsLoop] at h
  | cons a rest ih =>
    intro e0 r h
    cases a with
    | Op o => exact ih _ r (by simpa [argsLoop] using h)
    | string s => exact ih _ r (by simpa [argsLoop] using h)
    | Kind k => exact ih _ r (by simpa [argsLoop] using h)
    | error x =>
      cases x with
      | nil =>
        simp only [argsLoop, Except.ok.injEq, Sum.inl.injEq] at h
        subst h; rfl
      | errorString s => exact ih _ r (by simpa [argsLoop] using h)
      | ptr op k err cs => exact ih _ r (by simpa [argsLoop] using h)
    | nilError => simp [argsLoop] at h
    | other T v =>
      simp only [argsLoop, Except.ok.injEq, Sum.inl.injEq] at h
      subst h; rfl

/-- A structured result of `E` is the node built from the given operation, kind and
cause. -/
theorem E_ok_structured (stk : List Nat) (args : List Arg) (r : error)
    (h : E stk args = .ok r) (hr : r.isStructured = true) :
    r = built stk ⟨givenOp args, givenKind args, givenCause args, []⟩ := by
  obtain ⟨_, h1 | ⟨e, he, hb⟩⟩ := E_ok_inv stk args r h
  · have := argsLoop_inl args _ r h1
    rw [hr] at this
    exact absurd this (by decide)
  · rw [hb, argsLoop_given args e he]

/-- A node returned by `E` whose cause is a structured error: the cause is the wrapped
argument with its kind normalised. -/
theorem E_ok_wraps (stk : List Nat) (args : List Arg) (op op' : Op) (K K' : Kind)
    (err' : error) (cs cs' : List Nat)
    (h : E stk args = .ok (.ptr op K (.ptr op' K' err' cs') cs)) :
    ∃ p, givenCause args = .ptr op' p err' cs' ∧
      K = (if givenKind args ≠ Undefined then givenKind args else p) ∧
      K' = (if givenKind args = Undefined ∨ givenKind args = p then Undefined else p) := by
  have hb := E_ok_structured stk args _ h rfl
  unfold built at hb
  split at hb
  · rename_i o p e c hg
    simp only [error.ptr.injEq] at hb hg
    obtain ⟨-, hK, ⟨ho, hK', he, hc⟩, -⟩ := hb
    subst ho he hc
    refine ⟨p, hg, ?_, ?_⟩
    · rw [hK]; by_cases hk : givenKind args = Undefined <;> simp [hk]
    · rw [hK']
      by_cases hk : givenKind args = Undefined
      · simp [hk]
      · by_cases hp : p = givenKind args
        · simp [hp]
        · have hp' : ¬ givenKind args = p := fun h => hp h.symm
          simp [hk, hp, hp']
  · rename_i hne
    simp only [error.ptr.injEq] at hb
    exact absurd hb.2.2.1.symm (hne _ _ _ _)

/-! ## Construction: kind normalisation -/

/-- C1: whenever `E` returns a node, with `k` the kind given in the arguments and `p` the
kind of the wrapped `Error` argument: if the node's cause is a structured error, the
node's kind is `k` when `k` is not `Undefined` and `p` otherwise, and the cause's kind is
`Undefined` when `k` is `Undefined` or `k = p`, and `p` otherwise; if the cause is not a
structured error, the node's kind is exactly `k`. -/
theorem E_kind_normalisation (stk : List Nat) (args : List Arg) (op : Op) (K : Kind)
    (cause : error) (cs : List Nat) (h : E stk args = .ok (.ptr op K cause cs)) :
    (∀ op' K' err' cs', cause = .ptr op' K' err' cs' →
      ∃ p, givenCause args = .ptr op' p err' cs' ∧
        K = (if givenKind args ≠ Undefined then givenKind args else p) ∧
        K' = (if givenKind args = Undefined ∨ givenKind args = p then Undefined else p)) ∧
    (cause.isStructured = false → K = givenKind args) := by
  constructor
  · intro op' K' err' cs' hc
    subst hc
    exact E_ok_wraps stk args op op' K K' err' cs cs' h
  · intro hs
    have hb := E_ok_structured stk args _ h rfl
    unfold built at hb
    split at hb
    · simp only [error.ptr.injEq] at hb
      rw [hb.2.2.1] at hs
      simp [error.isStructured] at hs
    · simp only [error.ptr.injEq] at hb
      exact hb.2.1

/-- Witness for `E_kind_normalisation`: `E(Timeout, e)` with `e` of kind `EntityNotFound`
and `E(e)` alone. -/
theorem E_kind_normalisation_witness :
    E [7, 2] [.Kind Timeout, .error (.ptr "open" EntityNotFound (.errorString "x") [9, 2])]
      = .ok (.ptr "" Timeout (.ptr "open" EntityNotFound (.errorString "x") [9, 2]) [7, 2]) ∧
    (Timeout = if givenKind
        [.Kind Timeout, .error (.ptr "open" EntityNotFound (.errorString "x") [9, 2])]
          ≠ Undefined
      then givenKind
        [.Kind Timeout, .error (.ptr "open" EntityNotFound (.errorString "x") [9, 2])]
      else EntityNotFound) := by
  refine ⟨rfl, ?_⟩
  obtain ⟨p, hp, hK, -⟩ :=
    (E_kind_normalisation [7, 2]
      [.Kind Timeout, .error (.ptr "open" EntityNotFound (.errorString "x") [9, 2])]
      "" Timeout (.ptr "open" EntityNotFound (.errorString "x") [9, 2]) [7, 2] rfl).1
      "open" EntityNotFound (.errorString "x") [9, 2] rfl
  have : p = EntityNotFound := by
    simp only [givenCause, List.foldl, error.ptr.injEq] at hp
    exact hp.2.1.symm
  rw [← this]
  exact hK

/-- C2, counterexample: `E(Timeout, E(EntityNotFound, "x"))` returns a node of kind
`Timeout` whose immediate cause still has kind `EntityNotFound`: both kinds of the pair
are different from `Undefined`. -/
theorem E_pair_two_kinds_counterexample :
    E [9, 2] [.Kind EntityNotFound, .string "x"]
      = .ok (.ptr "" EntityNotFound (.errorString "x") [9, 2]) ∧
    E [7, 2] [.Kind Timeout, .error (.ptr "" EntityNotFound (.errorString "x") [9, 2])]
      = .ok (.ptr "" Timeout (.ptr "" EntityNotFound (.errorString "x") [9, 2]) [7, 2]) ∧
    ¬ (Timeout = Undefined ∨ EntityNotFound = Undefined) :=
  ⟨rfl, rfl, by decide⟩

/-- C2, amended: whenever `E` returns a node whose cause is a structured error, with `k`
the kind given in the arguments and `p` the kind of the wrapped `Error` argument: if `k`
is `Undefined`, or `p` is `Undefined`, or `k = p`, then at most one of the node's kind
and its cause's kind is different from `Undefined` (the cause's kind is `Undefined` in
the first and third case); otherwise the node has kind `k`, its cause keeps kind `p`, and
the two differ. -/
theorem E_pair_kinds (stk : List Nat) (args : List Arg) (op op' : Op) (K K' : Kind)
    (err' : error) (cs cs' : List Nat)
    (h : E stk args = .ok (.ptr op K (.ptr op' K' err' cs') cs)) :
    ∃ p, givenCause args = .ptr op' p err' cs' ∧
      ((givenKind args = Undefined ∨ p = Undefined ∨ givenKind args = p) →
        (K = Undefined ∨ K' = Undefined) ∧
        ((givenKind args = Undefined ∨ givenKind args = p) → K' = Undefined)) ∧
      (¬ (givenKind args = Undefined ∨ p = Undefined ∨ givenKind args = p) →
        K = givenKind args ∧ K' = p ∧ K ≠ K' ∧ K ≠ Undefined ∧ K' ≠ Undefined) := by
  obtain ⟨p, hp, hK, hK'⟩ := E_ok_wraps stk args op op' K K' err' cs cs' h
  refine ⟨p, hp, ?_, ?_⟩
  · intro hc
    by_cases hk : givenKind args = Undefined
    · simp [hk] at hK'
      exact ⟨Or.inr hK', fun _ => hK'⟩
    · by_cases hkp : givenKind args = p
      · simp [hkp] at hK'
        exact ⟨Or.inr hK', fun _ => hK'⟩
      · rcases hc with hc | hc | hc
        · exact absurd hc hk
        · simp [hk, hkp] at hK'
          exact ⟨Or.inr (hK'.trans hc), fun h' => (h'.elim hk hkp).elim⟩
        · exact absurd hc hkp
  · intro hc
    simp only [not_or] at hc
    obtain ⟨hk, hp0, hkp⟩ := hc
    simp [hk] at hK
    simp [hk, hkp] at hK'
    refine ⟨hK, hK', ?_, ?_, ?_⟩
    · rw [hK, hK']; exact hkp
    · rw [hK]; exact hk
    · rw [hK']; exact hp0

/-- Witness for `E_pair_kinds`: `E(e)` with `e` of kind `EntityNotFound`, where the
cause's kind is cleared. -/
theorem E_pair_kinds_witness :
    E [7, 2] [.error (.ptr "open" EntityNotFound (.errorString "x") [9, 2])]
      = .ok (.ptr "" EntityNotFound (.ptr "open" Undefined (.errorString "x") [9, 2]) [7, 2]) ∧
    ∃ p, givenCause [.error (.ptr "open" EntityNotFound (.errorString "x") [9, 2])]
      = .ptr "open" p (.errorString "x") [9, 2] :=
  ⟨rfl,
    (E_pair_kinds [7, 2] [.error (.ptr "open" EntityNotFound (.errorString "x") [9, 2])]
      "" "open" EntityNotFound Undefined (.errorString "x") [7, 2] [9, 2] rfl).imp
      fun _ h => h.1⟩

/-! ## Kind lookup -/

theorem resolvedKind_ptr (op : Op) (k : Kind) (err : error) (cs : List Nat) :
    resolvedKind (.ptr op k err cs) = if k ≠ Undefined then some k else resolvedKind err := by
  by_cases hk : k = Undefined <;> simp [resolvedKind, chainKinds, List.find?, hk]

theorem Is_true_iff (kind : Kind) : ∀ err : error,
    Is kind err = true ↔ resolvedKind err = some kind := by
  intro err
  induction err with
  | nil => simp [Is, resolvedKind, chainKinds]
  | errorString s => simp [Is, resolvedKind, chainKinds]
  | ptr op k err cs ih =>
    rw [resolvedKind_ptr]
    by_cases hk : k = Undefined
    · by_cases he : err = .nil
      · subst he
        simp [Is, hk, resolvedKind, chainKinds]
      · simp [Is, hk, he, ih]
    · simp [Is, hk]

theorem resolvedKind_ne_Undefined (err : error) : resolvedKind err ≠ some Undefined := by
  intro h
  have := List.find?_some h
  simp at this

/-- C3: `Is(kind, err)` is true if and only if `err` is a structured error and the first
kind different from `Undefined` met walking down its chain of structured causes exists
and equals `kind`; it is false on a leaf error and on an absent error, false when the
walk finds no defined kind, and `Is(Undefined, err)` is false for every `err`. -/
theorem Is_iff_resolvedKind :
    (∀ (kind : Kind) (err : error),
      Is kind err = true ↔ err.isStructured = true ∧ resolvedKind err = some kind) ∧
    (∀ (kind : Kind) (s : String), Is kind (.errorString s) = false) ∧
    (∀ kind : Kind, Is kind .nil = false) ∧
    (∀ (kind : Kind) (err : error), resolvedKind err = none → Is kind err = false) ∧
    (∀ err : error, Is Undefined err = false) := by
  refine ⟨?_, fun _ _ => rfl, fun _ => rfl, ?_, ?_⟩
  · intro kind err
    rw [Is_true_iff]
    constructor
    · intro h
      refine ⟨?_, h⟩
      cases err with
      | nil => simp [resolvedKind, chainKinds] at h
      | errorString s => simp [resolvedKind, chainKinds] at h
      | ptr op k e cs => rfl
    · exact fun h => h.2
  · intro kind err h
    cases hI : Is kind err with
    | false => rfl
    | true => rw [(Is_true_iff kind err).1 hI] at h; simp at h
  · intro err
    cases hI : Is Undefined err with
    | false => rfl
    | true => exact absurd ((Is_true_iff _ err).1 hI) (resolvedKind_ne_Undefined err)

theorem Is_built_no_kind (stk : List Nat) (o eop : Op) (k ek : Kind) (eerr : error)
    (ecs : List Nat) :
    Is k (built stk ⟨o, Undefined, .ptr eop ek eerr ecs, []⟩) = Is k (.ptr eop ek eerr ecs) := by
  by_cases hk : ek = Undefined
  · subst hk
    simp [built, Is]
  · simp [built, Is, hk]

/-- C4: wrapping a structured error `e` without giving a kind preserves kind lookup:
`Is(k, E(o, e)) = Is(k, e)` and `Is(k, E(e)) = Is(k, e)` for every value these calls
return; when `e` has a kind `K1` that is not `Undefined`, the node `E(e)` returns has kind
`K1`, its cause is `e` with kind `Undefined`, and `Is(K1, E(e))` is true.  Both calls
return whenever the new stack is empty or not shorter than the stack of `e`. -/
theorem E_without_kind_preserves_Is (stk : List Nat) (o eop : Op) (k ek : Kind)
    (eerr : error) (ecs : List Nat) :
    (∀ r, E stk [.Op o, .error (.ptr eop ek eerr ecs)] = .ok r →
      Is k r = Is k (.ptr eop ek eerr ecs)) ∧
    (∀ r, E stk [.error (.ptr eop ek eerr ecs)] = .ok r →
      Is k r = Is k (.ptr eop ek eerr ecs)) ∧
    (∀ r, E stk [.error (.ptr eop ek eerr ecs)] = .ok r → ek ≠ Undefined →
      r = .ptr "" ek (.ptr eop Undefined eerr ecs) stk ∧ Is ek r = true) ∧
    (stk.length = 0 ∨ ecs.length ≤ stk.length →
      ∃ r1 r2, E stk [.Op o, .error (.ptr eop ek eerr ecs)] = .ok r1 ∧
        E stk [.error (.ptr eop ek eerr ecs)] = .ok r2) := by
  have key : ∀ (args : List Arg) (r : error), E stk args = .ok r →
      ∀ e, argsLoop args ⟨"", 0, .nil, []⟩ = .ok (.inr e) → r = built stk e := by
    intro args r h e he
    obtain ⟨_, h1 | ⟨e', he', hb⟩⟩ := E_ok_inv stk args r h
    · rw [he] at h1; cases h1
    · rw [he] at he'; cases he'; exact hb
  refine ⟨?_, ?_, ?_, ?_⟩
  · intro r h
    rw [key _ r h ⟨o, Undefined, .ptr eop ek eerr ecs, []⟩ rfl]
    exact Is_built_no_kind stk o eop k ek eerr ecs
  · intro r h
    rw [key _ r h ⟨"", Undefined, .ptr eop ek eerr ecs, []⟩ rfl]
    exact Is_built_no_kind stk "" eop k ek eerr ecs
  · intro r h hk
    rw [key _ r h ⟨"", Undefined, .ptr eop ek eerr ecs, []⟩ rfl]
    simp [built, Is, hk]
  · intro hfit
    exact ⟨_, _,
      E_ok stk _ ⟨o, Undefined, .ptr eop ek eerr ecs, []⟩ (by simp) rfl hfit,
      E_ok stk _ ⟨"", Undefined, .ptr eop ek eerr ecs, []⟩ (by simp) rfl hfit⟩

/-! ## Matching -/

theorem Match_ptr (rt : Runtime) (op1 op2 : Op) (k1 k2 : Kind) (err1 err2 : error)
    (cs1 cs2 : List Nat) :
    Match rt (.ptr op1 k1 err1 cs1) (.ptr op2 k2 err2 cs2) =
      (decide (op1 = "" ∨ op2 = op1) && decide (k1 = Undefined ∨ k2 = k1) &&
        (match err1 with
          | .nil => true
          | .errorString s => decide (err2 ≠ .nil ∧ error.Error rt 0 err2 = s)
          | .ptr o k e c => Match rt (.ptr o k e c) err2)) := by
  rw [Match]
  by_cases h1 : op1 = "" <;> by_cases h2 : op2 = op1 <;>
    by_cases h3 : k1 = Undefined <;> by_cases h4 : k2 = k1 <;>
    cases err1 <;> simp [h1, h2, h3, h4, error.asError, error.Error]

theorem clearedFrom_imp_Match (rt : Runtime) : ∀ t c : error,
    clearedFrom t c = true → Match rt t c = true := by
  intro t
  induction t with
  | nil => intro c h; simp [clearedFrom] at h
  | errorString s => intro c h; simp [clearedFrom] at h
  | ptr op1 k1 err1 cs1 ih =>
    intro c h
    cases c with
    | nil => simp [clearedFrom] at h
    | errorString s => simp [clearedFrom] at h
    | ptr op2 k2 err2 cs2 =>
      rw [Match_ptr]
      simp only [clearedFrom, Bool.and_eq_true, Bool.or_eq_true, beq_iff_eq] at h
      obtain ⟨⟨hop, hk⟩, herr⟩ := h
      have e1 : decide (op1 = "" ∨ op2 = op1) = true :=
        decide_eq_true (hop.imp id Eq.symm)
      have e2 : decide (k1 = Undefined ∨ k2 = k1) = true :=
        decide_eq_true (hk.imp id Eq.symm)
      rw [e1, e2]
      cases err1 with
      | nil => rfl
      | errorString s =>
        rcases herr with herr | herr
        · cases herr
        · simp only [error.isStructured] at herr
          have : error.errorString s = err2 := by simpa using herr
          subst this
          simp [error.Error]
      | ptr o k e c =>
        rcases herr with herr | herr
        · cases herr
        · simp only [error.isStructured, if_true] at herr
          simpa using ih err2 herr

theorem clearedFrom_refl : ∀ c : error, c.isStructured = true → clearedFrom c c = true := by
  intro c
  induction c with
  | nil => intro h; simp [error.isStructured] at h
  | errorString s => intro h; simp [error.isStructured] at h
  | ptr op k err cs ih =>
    intro _
    rw [clearedFrom]
    cases err with
    | nil => simp
    | errorString s => simp [error.isStructured]
    | ptr o k' e c =>
      have := ih rfl
      simp [error.isStructured, this]

/-- C5: unset template fields are wildcards.  For every structured candidate `c` and
every template `t` obtained from `c` by clearing fields at any depth of the chain
(operation to empty, kind to `Undefined`, cause to absent), `Match(t, c)` is true; in
particular `Match(c, c)` is true for every structured `c`, and the template with all
fields unset matches every structured error. -/
theorem Match_wildcards (rt : Runtime) :
    (∀ t c : error, clearedFrom t c = true → Match rt t c = true) ∧
    (∀ c : error, c.isStructured = true → Match rt c c = true) ∧
    (∀ (c : error) (cs : List Nat), c.isStructured = true →
      Match rt (.ptr "" Undefined .nil cs) c = true) := by
  refine ⟨clearedFrom_imp_Match rt, ?_, ?_⟩
  · intro c hc
    exact clearedFrom_imp_Match rt c c (clearedFrom_refl c hc)
  · intro c cs hc
    cases c with
    | nil => simp [error.isStructured] at hc
    | errorString s => simp [error.isStructured] at hc
    | ptr op k err cs' => simp [Match_ptr]

/-- C6: `Match(t, c)` is false exactly when `t` or `c` is not a structured error, or
the operation of `t` is non-empty and differs from that of `c`, or the kind of `t` is not
`Undefined` and differs from that of `c`, or the cause of `t` is a leaf and the cause of
`c` is absent or its message differs, or the cause of `t` is structured and
`Match(t.cause, c.cause)` is false; in every other case it is true. -/
theorem Match_false_iff (rt : Runtime) (t c : error) :
    Match rt t c = false ↔
      (t.isStructured = false ∨ c.isStructured = false ∨
        (t.op ≠ "" ∧ c.op ≠ t.op) ∨
        (t.kind ≠ Undefined ∧ c.kind ≠ t.kind) ∨
        (∃ s, t.cause = .errorString s ∧
          (c.cause = .nil ∨ error.Error rt 0 c.cause ≠ s)) ∨
        (t.cause.isStructured = true ∧ Match rt t.cause c.cause = false)) := by
  cases t with
  | nil => simp [Match, error.isStructured]
  | errorString s => simp [Match, error.isStructured]
  | ptr op1 k1 err1 cs1 =>
    cases c with
    | nil => simp [Match, error.isStructured]
    | errorString s => simp [Match, error.isStructured]
    | ptr op2 k2 err2 cs2 =>
      rw [Match_ptr]
      simp only [error.isStructured, error.op, error.kind, error.cause]
      by_cases h1 : op1 = "" <;> by_cases h2 : op2 = op1 <;>
        by_cases h3 : k1 = Undefined <;> by_cases h4 : k2 = k1 <;>
        cases err1 <;> simp [h1, h2, h3, h4, error.isStructured] <;> tauto

/-! ## Rendering -/

theorem length_eq_zero_iff (s : String) : s.length = 0 ↔ s = "" := by
  constructor
  · intro h
    cases s with
    | mk l =>
      have hl : l = [] := List.length_eq_zero.mp h
      subst hl; rfl
  · rintro rfl; rfl

theorem append_eq_empty_iff (a b : String) : a ++ b = "" ↔ a = "" ∧ b = "" := by
  constructor
  · intro h
    have h' := congrArg String.data h
    simp only [String.data_append] at h'
    have h'' : a.data = [] ∧ b.data = [] := by simpa using h'
    exact ⟨String.ext h''.1, String.ext h''.2⟩
  · rintro ⟨rfl, rfl⟩; rfl

theorem appendStrToBuf_empty (str : String) : appendStrToBuf "" str = "" := rfl

theorem appendStrToBuf_of_ne (b str : String) (h : b ≠ "") :
    appendStrToBuf b str = b ++ str := by
  have : ¬ b.length = 0 := fun h' => h ((length_eq_zero_iff b).1 h')
  simp [appendStrToBuf, this]

theorem appendStrToBuf_append_eq_empty (b str t : String) :
    appendStrToBuf b str ++ t = "" ↔ b = "" ∧ t = "" := by
  by_cases hb : b = ""
  · subst hb
    simp [appendStrToBuf_empty]
  · rw [appendStrToBuf_of_ne b str hb]
    simp [append_eq_empty_iff, hb]

theorem Error_ptr (rt : Runtime) (d : Nat) (op : Op) (k : Kind) (err : error)
    (cs : List Nat) :
    error.Error rt d (.ptr op k err cs) =
      if Error.buffer rt d ⟨op, k, err, cs⟩ (error.Error rt (d + 1) err) = "" then "no error"
      else Error.buffer rt d ⟨op, k, err, cs⟩ (error.Error rt (d + 1) err) := by
  rw [error.Error]
  simp only [length_eq_zero_iff]

theorem Error_ptr_ne_empty (rt : Runtime) (d : Nat) (op : Op) (k : Kind) (err : error)
    (cs : List Nat) : error.Error rt d (.ptr op k err cs) ≠ "" := by
  rw [Error_ptr]
  split
  · decide
  · assumption

theorem ite_mem_of_mem {α : Type} (c : Prop) [Decidable c] (a b : α) (l : List α)
    (ha : a ∈ l) (hb : b ∈ l) : (if c then a else b) ∈ l := by
  split <;> assumption

/-- The twelve strings `Kind.String` can return. -/
theorem Kind_String_mem (k : Kind) :
    Kind.String k ∈ ["UNDEF", "TO001", "AUTH001", "AUTH002", "F001", "VAL001", "VAL002",
      "VAL003", "CIP001", "HTTP001", "SVC001", "unknown error kind"] := by
  unfold Kind.String
  repeat (refine ite_mem_of_mem _ _ _ _ (by decide) ?_)
  decide

theorem Kind_String_ne_empty (k : Kind) : Kind.String k ≠ "" := by
  intro h
  have hm := Kind_String_mem k
  rw [h] at hm
  revert hm
  decide

theorem step_eq_empty (c : Prop) [Decidable c] (b str t : String) (ht : c → t ≠ "") :
    (if c then appendStrToBuf b str ++ t else b) = "" ↔ b = "" ∧ ¬ c := by
  by_cases hc : c
  · simp [hc, appendStrToBuf_append_eq_empty, ht hc]
  · simp [hc]

theorem isZero_iff (o : Op) (k : Kind) (e : error) (c : List Nat) :
    (⟨o, k, e, c⟩ : Error).isZero = true ↔ o = "" ∧ k = Undefined ∧ e = .nil := by
  simp [Error.isZero, and_assoc]

/-- The part of `Error()` that writes the cause, on a buffer `b`. -/
theorem cause_eq_empty_iff (rt : Runtime) (d : Nat) (err : error) (b : String) :
    (if err ≠ .nil then
        match err.asError with
        | some prevErr =>
          if !prevErr.isZero then appendStrToBuf b Separator ++ error.Error rt (d + 1) err
          else b
        | none => appendStrToBuf b ": " ++ error.Error rt (d + 1) err
      else b) = "" ↔
      b = "" ∧
        (err = .nil ∨ (∃ cs', err = .ptr "" Undefined .nil cs') ∨ err = .errorString "") := by
  cases err with
  | nil => simp
  | errorString s =>
    simp [error.asError, error.Error, appendStrToBuf_append_eq_empty]
  | ptr o k' e c =>
    have hne := Error_ptr_ne_empty rt (d + 1) o k' e c
    by_cases hz : (⟨o, k', e, c⟩ : Error).isZero = true
    · obtain ⟨rfl, rfl, rfl⟩ := (isZero_iff o k' e c).1 hz
      simp [error.asError, Error.isZero]
    · have hz' : ¬ (o = "" ∧ k' = Undefined ∧ e = .nil) :=
        fun h => hz ((isZero_iff o k' e c).2 h)
      have hzf : (⟨o, k', e, c⟩ : Error).isZero = false := by simpa using hz
      simp only [error.asError, hzf]
      constructor
      · intro h
        have h' : appendStrToBuf b Separator ++ error.Error rt (d + 1) (.ptr o k' e c) = "" := by
          simpa using h
        exact absurd ((appendStrToBuf_append_eq_empty _ _ _).1 h').2 hne
      · rintro ⟨_, h | ⟨cs', h⟩ | h⟩
        · cases h
        · simp only [error.ptr.injEq] at h
          exact absurd ⟨h.1, h.2.1, h.2.2.1⟩ hz'
        · cases h

/-- The buffer of `Error()` is empty exactly when the stack prints nothing, the
operation is empty, the kind is `Undefined`, and the cause is absent, a zero node, or a
leaf with an empty message. -/
theorem buffer_eq_empty_iff (rt : Runtime) (d : Nat) (op : Op) (k : Kind) (err : error)
    (cs : List Nat) :
    Error.buffer rt d ⟨op, k, err, cs⟩ (error.Error rt (d + 1) err) = "" ↔
      printStack rt d cs "" = "" ∧ op = "" ∧ k = Undefined ∧
        (err = .nil ∨ (∃ cs', err = .ptr "" Undefined .nil cs') ∨ err = .errorString "") := by
  unfold Error.buffer
  simp only []
  rw [cause_eq_empty_iff, step_eq_empty _ _ _ _ (fun _ => Kind_String_ne_empty k),
    step_eq_empty _ _ _ _ (fun h => h)]
  simp only [ne_eq, not_not, and_assoc]

/-- C9: rendering is never empty.  For every `Error` node (any operation, kind, frames
and cause) `Error()` returns a non-empty string; it returns exactly `"no error"` whenever
the buffer is empty at the end, which is the case exactly when the stack prints nothing,
the operation is empty, the kind is `Undefined` and the cause is absent, a zero node or a
leaf with an empty message. -/
theorem Error_never_empty (rt : Runtime) (d : Nat) (op : Op) (k : Kind) (err : error)
    (cs : List Nat) :
    error.Error rt d (.ptr op k err cs) ≠ "" ∧
    (Error.buffer rt d ⟨op, k, err, cs⟩ (error.Error rt (d + 1) err) = "" →
      error.Error rt d (.ptr op k err cs) = "no error") ∧
    ((printStack rt d cs "" = "" ∧ op = "" ∧ k = Undefined ∧
        (err = .nil ∨ (∃ cs', err = .ptr "" Undefined .nil cs') ∨ err = .errorString "")) →
      error.Error rt d (.ptr op k err cs) = "no error") := by
  refine ⟨Error_ptr_ne_empty rt d op k err cs, ?_, ?_⟩
  · intro h
    rw [Error_ptr, if_pos h]
  · intro h
    rw [Error_ptr, if_pos ((buffer_eq_empty_iff rt d op k err cs).2 h)]

/-- C10: a zero cause contributes nothing.  A node whose cause is a structured error
with empty operation, kind `Undefined` and no cause renders as the same node with no
cause at all. -/
theorem Error_zero_cause (rt : Runtime) (d : Nat) (op : Op) (k : Kind)
    (cs cs' : List Nat) :
    error.Error rt d (.ptr op k (.ptr "" Undefined .nil cs') cs) =
      error.Error rt d (.ptr op k .nil cs) := by
  rw [Error_ptr rt d op k .nil cs, Error_ptr rt d op k (.ptr "" Undefined .nil cs') cs]
  simp [Error.buffer, error.asError, Error.isZero]

theorem Error_leaf_cause (rt : Runtime) (d : Nat) (o : Op) (m : String) (cs : List Nat)
    (hs : printStack rt d cs "" = "") (ho : o ≠ "") :
    error.Error rt d (.ptr o Undefined (.errorString m) cs) = o ++ ": " ++ m := by
  have hb : Error.buffer rt d ⟨o, Undefined, .errorString m, cs⟩
      (error.Error rt (d + 1) (.errorString m)) = o ++ ": " ++ m := by
    simp only [Error.buffer, hs, appendStrToBuf_empty]
    simp [ho, error.asError, error.Error, appendStrToBuf_of_ne o ": " ho]
  rw [Error_ptr, hb, if_neg]
  simp [append_eq_empty_iff, ho]

/-- C7: for non-empty operation labels `o1`, `o2`, a kind `K` other than `Undefined`
and a non-empty message `m`, with no stack frame printed, the value
`r = E(o1, K, E(o2, Str(m)))` renders as `o1`, `": "`, the code of `K`, `":\n\t"`,
`o2`, `": "`, `m` concatenated, and `Is(K, r)` is true. -/
theorem E_render_end_to_end (rt : Runtime) (stk1 stk2 : List Nat) (o1 o2 : Op) (K : Kind)
    (m : String) (inner r : error)
    (ho1 : o1 ≠ "") (ho2 : o2 ≠ "") (hK : K ≠ Undefined) (_hm : m ≠ "")
    (hs1 : printStack rt 0 stk1 "" = "") (hs2 : printStack rt 1 stk2 "" = "")
    (hinner : E stk2 [.Op o2, .error (Str m)] = .ok inner)
    (hr : E stk1 [.Op o1, .Kind K, .error inner] = .ok r) :
    error.Error rt 0 r = o1 ++ ": " ++ Kind.String K ++ ":\n\t" ++ o2 ++ ": " ++ m ∧
    Is K r = true := by
  have hi : inner = .ptr o2 Undefined (.errorString m) stk2 := by
    have := E_ok stk2 [.Op o2, .error (Str m)] ⟨o2, Undefined, .errorString m, []⟩
      (by simp) rfl (Or.inr (by simp [error.callers]))
    rw [hinner] at this
    simpa [built] using this
  subst hi
  have hr' : r = .ptr o1 K (.ptr o2 Undefined (.errorString m) stk2) stk1 := by
    obtain ⟨_, h1 | ⟨e, he, hb⟩⟩ := E_ok_inv stk1 _ r hr
    · simp [argsLoop] at h1
    · simp only [argsLoop, Except.ok.injEq, Sum.inr.injEq] at he
      subst he
      rw [hb]
      simp [built, hK]
  subst hr'
  refine ⟨?_, by simp [Is, hK]⟩
  have hin := Error_leaf_cause rt 1 o2 m stk2 hs2 ho2
  have hK' : K ≠ 0 := hK
  have h1 : o1 ++ ": " ++ Kind.String K ≠ "" := by simp [append_eq_empty_iff, ho1]
  have hb : Error.buffer rt 0 ⟨o1, K, .ptr o2 Undefined (.errorString m) stk2, stk1⟩
      (error.Error rt 1 (.ptr o2 Undefined (.errorString m) stk2))
      = o1 ++ ": " ++ Kind.String K ++ ":\n\t" ++ o2 ++ ": " ++ m := by
    simp only [Error.buffer, hs1, appendStrToBuf_empty, hin]
    simp only [ne_eq, ho1, not_false_eq_true, if_true, String.empty_append, hK',
      appendStrToBuf_of_ne o1 ": " ho1, error.asError, Error.isZero, reduceCtorEq]
    simp only [ho2, decide_False, Bool.false_and, Bool.not_false, if_true,
      appendStrToBuf_of_ne _ Separator h1]
    simp [Separator, String.append_assoc]
  rw [Error_ptr, hb, if_neg]
  simp [append_eq_empty_iff, ho1]

/-- Witness for `E_render_end_to_end`: the example of the specification, built and
rendered inside `main.main`, where no frame is printed. -/
theorem E_render_end_to_end_witness :
    error.Error sampleRuntime 0
        (.ptr "save" EntityNotFound (.ptr "open" Undefined (.errorString "disk full")
          [102, 7, 1]) [101, 7, 1])
      = "save: F001:\n\topen: disk full" ∧
    Is EntityNotFound
        (.ptr "save" EntityNotFound (.ptr "open" Undefined (.errorString "disk full")
          [102, 7, 1]) [101, 7, 1]) = true :=
  E_render_end_to_end sampleRuntime [101, 7, 1] [102, 7, 1] "save" "open" EntityNotFound
    "disk full" _ _ (by decide) (by decide) (by decide) (by decide) (by decide) (by decide)
    rfl rfl

/-! ## Occurrences of a kind code in a rendering -/

theorem isPrefixOf_append_sep (c : Char) (rest : List Char) :
    ∀ (pat l : List Char), c ∉ pat →
      pat.isPrefixOf (l ++ c :: rest) = pat.isPrefixOf l := by
  intro pat
  induction pat with
  | nil => intro l _; simp
  | cons p ps ih =>
    intro l hc
    have hp : p ≠ c := fun h => hc (by simp [h])
    have hps : c ∉ ps := fun h => hc (by simp [h])
    cases l with
    | nil => simp [List.isPrefixOf, hp]
    | cons y l' =>
      show (p == y && ps.isPrefixOf (l' ++ c :: rest)) = (p == y && ps.isPrefixOf l')
      rw [ih l' hps]

/-- A pattern without the character `c` does not straddle an occurrence of `c`. -/
theorem occurrences_append_sep (pat : List Char) (c : Char) (rest : List Char)
    (hne : pat ≠ []) (hc : c ∉ pat) :
    ∀ a : List Char,
      occurrences pat (a ++ c :: rest) = occurrences pat a + occurrences pat rest := by
  have hhead : pat.isPrefixOf (c :: rest) = false := by
    cases pat with
    | nil => exact absurd rfl hne
    | cons p ps =>
      have hp : p ≠ c := fun h => hc (by simp [h])
      simp [List.isPrefixOf, hp]
  intro a
  induction a with
  | nil => simp [occurrences, hne, hhead]
  | cons x a' ih =>
    have hx : pat.isPrefixOf (x :: (a' ++ c :: rest)) = pat.isPrefixOf (x :: a') :=
      isPrefixOf_append_sep c rest pat (x :: a') hc
    show (if pat.isPrefixOf (x :: (a' ++ c :: rest)) then 1 else 0)
        + occurrences pat (a' ++ c :: rest)
      = ((if pat.isPrefixOf (x :: a') then 1 else 0) + occurrences pat a')
        + occurrences pat rest
    rw [hx, ih]
    omega

/-- A pattern that does not start with `c` has no occurrence at a leading `c`. -/
theorem occurrences_cons_skip (pat : List Char) (c : Char) (rest : List Char)
    (hc : pat.head? ≠ some c) (hne : pat ≠ []) :
    occurrences pat (c :: rest) = occurrences pat rest := by
  cases pat with
  | nil => exact absurd rfl hne
  | cons p ps =>
    have hp : p ≠ c := fun h => hc (by simp [h])
    simp [occurrences, List.isPrefixOf, hp]

/-- What the counting argument needs of a code string: it is not empty, holds no `:`,
starts with none of the characters that follow a `:` in a rendering, and occurs in
itself once. -/
theorem Kind_String_shape (k : Kind) :
    (Kind.String k).data ≠ [] ∧ ':' ∉ (Kind.String k).data ∧
    (Kind.String k).data.head? ≠ some ' ' ∧ (Kind.String k).data.head? ≠ some '\n' ∧
    (Kind.String k).data.head? ≠ some '\t' ∧
    occurrences (Kind.String k).data (Kind.String k).data = 1 := by
  have hm := Kind_String_mem k
  generalize Kind.String k = s at hm
  simp only [List.mem_cons, List.mem_singleton, List.not_mem_nil, or_false] at hm
  rcases hm with h | h | h | h | h | h | h | h | h | h | h | h <;> subst h <;> decide

theorem countOf_append_colon (pat a t : String) (hne : pat.data ≠ [])
    (hc : ':' ∉ pat.data) (h1 : pat.data.head? ≠ some ' ') :
    countOf pat (a ++ ": " ++ t) = countOf pat a + countOf pat t := by
  have : (a ++ ": " ++ t).data = a.data ++ ':' :: (' ' :: t.data) := by
    simp [String.data_append]
  rw [countOf, this, occurrences_append_sep pat.data ':' _ hne hc,
    occurrences_cons_skip pat.data ' ' _ h1 hne]
  rfl

theorem countOf_append_Separator (pat a t : String) (hne : pat.data ≠ [])
    (hc : ':' ∉ pat.data) (h1 : pat.data.head? ≠ some '\n')
    (h2 : pat.data.head? ≠ some '\t') :
    countOf pat (a ++ Separator ++ t) = countOf pat a + countOf pat t := by
  have : (a ++ Separator ++ t).data = a.data ++ ':' :: ('\n' :: ('\t' :: t.data)) := by
    simp [String.data_append, Separator]
  rw [countOf, this, occurrences_append_sep pat.data ':' _ hne hc,
    occurrences_cons_skip pat.data '\n' _ h1 hne,
    occurrences_cons_skip pat.data '\t' _ h2 hne]
  rfl

theorem countOf_empty (pat : String) (hne : pat.data ≠ []) : countOf pat "" = 0 := by
  show occurrences pat.data [] = 0
  simp [occurrences, hne]

/-- C8, counterexample: with `K = EntityNotFound`, the error
`inner = E(K, E(Timeout, E(K, "x")))` and no frame printed, `E(K, inner)` renders as
`"F001:\n\tTO001:\n\tF001: x"`, in which the code of `K` occurs twice. -/
theorem E_same_kind_twice_counterexample :
    E [104, 7, 1] [.Kind EntityNotFound, .string "x"]
      = .ok (.ptr "" EntityNotFound (.errorString "x") [104, 7, 1]) ∧
    E [105, 7, 1] [.Kind Timeout, .error (.ptr "" EntityNotFound (.errorString "x") [104, 7, 1])]
      = .ok (.ptr "" Timeout (.ptr "" EntityNotFound (.errorString "x") [104, 7, 1])
          [105, 7, 1]) ∧
    E [102, 7, 1] [.Kind EntityNotFound,
        .error (.ptr "" Timeout (.ptr "" EntityNotFound (.errorString "x") [104, 7, 1])
          [105, 7, 1])]
      = .ok (.ptr "" EntityNotFound
          (.ptr "" Timeout (.ptr "" EntityNotFound (.errorString "x") [104, 7, 1])
            [105, 7, 1]) [102, 7, 1]) ∧
    E [101, 7, 1] [.Kind EntityNotFound,
        .error (.ptr "" EntityNotFound
          (.ptr "" Timeout (.ptr "" EntityNotFound (.errorString "x") [104, 7, 1])
            [105, 7, 1]) [102, 7, 1])]
      = .ok (.ptr "" EntityNotFound
          (.ptr "" Undefined
            (.ptr "" Timeout (.ptr "" EntityNotFound (.errorString "x") [104, 7, 1])
              [105, 7, 1]) [102, 7, 1]) [101, 7, 1]) ∧
    error.Error sampleRuntime 0
        (.ptr "" EntityNotFound
          (.ptr "" Undefined
            (.ptr "" Timeout (.ptr "" EntityNotFound (.errorString "x") [104, 7, 1])
              [105, 7, 1]) [102, 7, 1]) [101, 7, 1])
      = "F001:\n\tTO001:\n\tF001: x" ∧
    countOf (Kind.String EntityNotFound) "F001:\n\tTO001:\n\tF001: x" = 2 :=
  ⟨rfl, rfl, rfl, rfl, by decide, by decide⟩

/-- C8, amended: for every kind `K` other than `Undefined` and every structured error
`inner` of kind `K`, the node `E(K, inner)` returns has `inner` with kind `Undefined` as
its cause, and renders as the printed frames, the code of `K` and, unless the cleared
inner node is zero, the separator and the rendering of the cleared inner node; the code
of `K` occurs in it as often as in the printed frames and in the rendering of the cleared
inner node together, plus one. -/
theorem E_same_kind_render (rt : Runtime) (stk : List Nat) (K : Kind) (iop : Op)
    (ierr : error) (ics : List Nat) (r : error) (hK : K ≠ Undefined)
    (hr : E stk [.Kind K, .error (.ptr iop K ierr ics)] = .ok r) :
    r = .ptr "" K (.ptr iop Undefined ierr ics) stk ∧
    error.Error rt 0 r =
      appendStrToBuf (printStack rt 0 stk "") ": " ++ Kind.String K ++
        (if iop = "" ∧ ierr = .nil then ""
          else Separator ++ error.Error rt 1 (.ptr iop Undefined ierr ics)) ∧
    countOf (Kind.String K) (error.Error rt 0 r) =
      countOf (Kind.String K) (printStack rt 0 stk "") + 1 +
        (if iop = "" ∧ ierr = .nil then 0
          else countOf (Kind.String K) (error.Error rt 1 (.ptr iop Undefined ierr ics))) := by
  have hr' : r = .ptr "" K (.ptr iop Undefined ierr ics) stk := by
    obtain ⟨_, h1 | ⟨e, he, hb⟩⟩ := E_ok_inv stk _ r hr
    · simp [argsLoop] at h1
    · simp only [argsLoop, Except.ok.injEq, Sum.inr.injEq] at he
      subst he
      rw [hb]
      simp [built, hK]
  subst hr'
  obtain ⟨h1, h2, h3, h4, h5, h6⟩ := Kind_String_shape K
  have hK0 : K ≠ 0 := hK
  have hcode := Kind_String_ne_empty K
  have hb1 : appendStrToBuf (printStack rt 0 stk "") ": " ++ Kind.String K ≠ "" := by
    intro h
    exact hcode ((appendStrToBuf_append_eq_empty _ _ _).1 h).2
  have hrender : error.Error rt 0 (.ptr "" K (.ptr iop Undefined ierr ics) stk) =
      appendStrToBuf (printStack rt 0 stk "") ": " ++ Kind.String K ++
        (if iop = "" ∧ ierr = .nil then ""
          else Separator ++ error.Error rt 1 (.ptr iop Undefined ierr ics)) := by
    have hb : Error.buffer rt 0 ⟨"", K, .ptr iop Undefined ierr ics, stk⟩
        (error.Error rt 1 (.ptr iop Undefined ierr ics)) =
        appendStrToBuf (printStack rt 0 stk "") ": " ++ Kind.String K ++
          (if iop = "" ∧ ierr = .nil then ""
            else Separator ++ error.Error rt 1 (.ptr iop Undefined ierr ics)) := by
      by_cases hz : iop = "" ∧ ierr = .nil
      · obtain ⟨rfl, rfl⟩ := hz
        simp [Error.buffer, hK0, error.asError, Error.isZero]
      · have hzf : (⟨iop, Undefined, ierr, ics⟩ : Error).isZero = false := by
          cases hzz : (⟨iop, Undefined, ierr, ics⟩ : Error).isZero with
          | false => rfl
          | true =>
            have := (isZero_iff iop Undefined ierr ics).1 hzz
            exact absurd ⟨this.1, this.2.2⟩ hz
        simp only [Error.buffer, ne_eq, not_true_eq_false, if_false, hK0, not_false_eq_true,
          if_true, reduceCtorEq, error.asError, hzf, Bool.not_false, hz,
          appendStrToBuf_of_ne _ Separator hb1, String.append_assoc]
    rw [Error_ptr, hb, if_neg]
    intro h
    exact hb1 ((append_eq_empty_iff _ _).1 h).1
  refine ⟨rfl, hrender, ?_⟩
  rw [hrender]
  have hcc : countOf (Kind.String K) (Kind.String K) = 1 := h6
  have htail : ∀ t : String, countOf (Kind.String K) (Kind.String K ++ Separator ++ t)
      = 1 + countOf (Kind.String K) t := by
    intro t
    rw [countOf_append_Separator _ _ _ h1 h2 h4 h5, hcc]
  have hrest : countOf (Kind.String K) (Kind.String K ++
        (if iop = "" ∧ ierr = .nil then ""
          else Separator ++ error.Error rt 1 (.ptr iop Undefined ierr ics)))
      = 1 + (if iop = "" ∧ ierr = .nil then 0
          else countOf (Kind.String K) (error.Error rt 1 (.ptr iop Undefined ierr ics))) := by
    by_cases hz : iop = "" ∧ ierr = .nil
    · simp only [hz, and_self, if_true, String.append_empty, hcc]
    · simp only [hz, if_false, ← String.append_assoc, htail]
  by_cases hS : printStack rt 0 stk "" = ""
  · rw [hS, appendStrToBuf_empty, String.empty_append, hrest,
      countOf_empty _ h1]
  · rw [appendStrToBuf_of_ne _ _ hS, String.append_assoc,
      countOf_append_colon _ _ _ h1 h2 h3, hrest]
    omega

/-- Witness for `E_same_kind_render`: `E(EntityNotFound, inner)` with `inner` of kind
`EntityNotFound`, operation `open` and leaf cause `x`, built and rendered in
`main.main`: the code occurs once. -/
theorem E_same_kind_render_witness :
    E [101, 7, 1]
        [.Kind EntityNotFound, .error (.ptr "open" EntityNotFound (.errorString "x") [102, 7, 1])]
      = .ok (.ptr "" EntityNotFound (.ptr "open" Undefined (.errorString "x") [102, 7, 1])
          [101, 7, 1]) ∧
    countOf (Kind.String EntityNotFound)
        (error.Error sampleRuntime 0
          (.ptr "" EntityNotFound (.ptr "open" Undefined (.errorString "x") [102, 7, 1])
            [101, 7, 1])) = 1 := by
  refine ⟨rfl, ?_⟩
  rw [(E_same_kind_render sampleRuntime [101, 7, 1] EntityNotFound "open"
    (.errorString "x") [102, 7, 1]
    (.ptr "" EntityNotFound (.ptr "open" Undefined (.errorString "x") [102, 7, 1]) [101, 7, 1])
    (by decide) rfl).2.2]
  decide

/-! ## Rendering: leading separator -/

/-- C12: the leading separator is suppressed.  For every non-empty message `m`, a node
with empty operation, kind `Undefined`, no printed frame and a leaf cause with message `m`
renders as exactly `m`. -/
theorem Error_leaf_only (rt : Runtime) (d : Nat) (m : String) (cs : List Nat)
    (hm : m ≠ "") (hs : printStack rt d cs "" = "") :
    error.Error rt d (.ptr "" Undefined (.errorString m) cs) = m := by
  have hb : Error.buffer rt d ⟨"", Undefined, .errorString m, cs⟩
      (error.Error rt (d + 1) (.errorString m)) = m := by
    simp [Error.buffer, hs, appendStrToBuf_empty, error.asError, error.Error]
  rw [Error_ptr, hb, if_neg hm]

/-- Witness for `Error_leaf_only`: the message `boom`, with a stack captured and
rendered in `main.main`. -/
theorem Error_leaf_only_witness :
    error.Error sampleRuntime 0 (.ptr "" Undefined (.errorString "boom") [101, 7, 1])
      = "boom" :=
  Error_leaf_only sampleRuntime 0 "boom" [101, 7, 1] (by decide) (by decide)

/-! ## Construction: failure and degradation -/

/-- C13: `E` called with an empty argument list panics and returns no error value. -/
theorem E_no_arguments (stk : List Nat) :
    E stk [] = .error "call to errors.E with no arguments" ∧ ∀ r, E stk [] ≠ .ok r := by
  refine ⟨rfl, ?_⟩
  intro r h
  cases h

theorem argsLoop_append_recognised : ∀ (pre : List Arg) (rest : List Arg) (e0 : Error),
    (∀ a ∈ pre, a.recognised = true) →
    ∃ e, argsLoop (pre ++ rest) e0 = argsLoop rest e := by
  intro pre
  induction pre with
  | nil => intro rest e0 _; exact ⟨e0, rfl⟩
  | cons a pre ih =>
    intro rest e0 h
    have hpre : ∀ b ∈ pre, b.recognised = true := fun b hb => h b (List.mem_cons_of_mem _ hb)
    have ha : a.recognised = true := h a (List.mem_cons_self _ _)
    cases a with
    | Op o => exact ih rest _ hpre
    | string s => exact ih rest _ hpre
    | Kind k => exact ih rest _ hpre
    | error x =>
      cases x with
      | nil => simp [Arg.recognised] at ha
      | errorString s => exact ih rest _ hpre
      | ptr op k err cs => exact ih rest _ hpre
    | nilError => simp [Arg.recognised] at ha
    | other T v => simp [Arg.recognised] at ha

/-- C14, counterexample: `E(np, 42)` with `np` a nil pointer of type `*Error` and the
integer `42` as the unrecognised argument.  The loop reaches the case `*Error` first and
the copy `eCopy := *arg` panics: `E` returns no leaf error. -/
theorem E_unknown_argument_counterexample :
    E [101, 7, 1] [.nilError, .other "int" "42"]
      = .error "invalid memory address or nil pointer dereference" ∧
    E [101, 7, 1] [.nilError, .other "int" "42"]
      ≠ .ok (.errorString "unknown type int, value 42 in error call") :=
  ⟨rfl, (by intro h; cases h)⟩

/-- C14, amended: an unrecognised argument degrades to a leaf error unless a nil `*Error`
comes before it.  Let the arguments `pre` each be an `Op`, a string, a `Kind`, a `*Error`
that is not nil or an error that is not nil.  When the next argument is of another type
`T`, with value `v`, or is nil, `E` does not panic and returns the leaf error with
message `unknown type T, value v in error call` (with `<nil>` for both on a nil
argument), whatever the arguments after it; `Is` and `Match` are false on the result.
When the next argument is a nil `*Error`, `E` panics at the copy `eCopy := *arg`. -/
theorem E_unknown_argument (rt : Runtime) (stk : List Nat) (pre post : List Arg)
    (T v : String) (hpre : ∀ a ∈ pre, a.recognised = true) :
    E stk (pre ++ .other T v :: post)
      = .ok (.errorString ("unknown type " ++ T ++ ", value " ++ v ++ " in error call")) ∧
    E stk (pre ++ .error .nil :: post)
      = .ok (.errorString "unknown type <nil>, value <nil> in error call") ∧
    E stk (pre ++ .nilError :: post)
      = .error "invalid memory address or nil pointer dereference" ∧
    (∀ (s : String) (k : Kind), Is k (.errorString s) = false) ∧
    (∀ (s : String) (x : error), Match rt (.errorString s) x = false) ∧
    (∀ s : String, (error.errorString s).isStructured = false) := by
  have hlen : ∀ (a : Arg), ¬ (pre ++ a :: post).length = 0 := by
    intro a; simp
  refine ⟨?_, ?_, ?_, fun _ _ => rfl, ?_, fun _ => rfl⟩
  · obtain ⟨e, he⟩ := argsLoop_append_recognised pre (.other T v :: post) ⟨"", 0, .nil, []⟩ hpre
    simp only [E, hlen, if_false, he, argsLoop, Errorf, unknownTypeText]
  · obtain ⟨e, he⟩ := argsLoop_append_recognised pre (.error .nil :: post) ⟨"", 0, .nil, []⟩ hpre
    simp only [E, hlen, if_false, he, argsLoop, Errorf, unknownTypeText]
    rfl
  · obtain ⟨e, he⟩ := argsLoop_append_recognised pre (.nilError :: post) ⟨"", 0, .nil, []⟩ hpre
    simp only [E, hlen, if_false, he, argsLoop, nilDereference]
  · intro s x
    simp [Match]

/-- Witness for `E_unknown_argument`: `E(Op("save"), 42, EntityNotFound)` with the
integer `42` as the unrecognised argument. -/
theorem E_unknown_argument_witness :
    (∀ a ∈ [Arg.Op "save"], a.recognised = true) ∧
    E [101, 7, 1] [.Op "save", .other "int" "42", .Kind EntityNotFound]
      = .ok (.errorString "unknown type int, value 42 in error call") :=
  ⟨by decide,
    (E_unknown_argument sampleRuntime [101, 7, 1] [.Op "save"] [.Kind EntityNotFound]
      "int" "42" (by decide)).1⟩

/-! ## Kind codes -/

/-- C15: the kinds with ordinals 0 to 10 (`Undefined`, `Timeout`, `IncorrectAuthToken`,
`ActionForbidden`, `EntityNotFound`, `MissingFields`, `FieldValidation`,
`IncorrectFieldType`, `CachingInProgress`, `IncorrectHTTPRequest`, `ServiceUnavailable`)
have the codes `UNDEF`, `TO001`, `AUTH001`, `AUTH002`, `F001`, `VAL001`, `VAL002`,
`VAL003`, `CIP001`, `HTTP001`, `SVC001`; these codes are pairwise distinct; every other
value of `Kind` has the code `unknown error kind`. -/
theorem Kind_String_codes :
    [Undefined, Timeout, IncorrectAuthToken, ActionForbidden, EntityNotFound, MissingFields,
      FieldValidation, IncorrectFieldType, CachingInProgress, IncorrectHTTPRequest,
      ServiceUnavailable].map Fin.val = [0, 1, 2, 3, 4, 5, 6, 7, 8, 9, 10] ∧
    [Undefined, Timeout, IncorrectAuthToken, ActionForbidden, EntityNotFound, MissingFields,
      FieldValidation, IncorrectFieldType, CachingInProgress, IncorrectHTTPRequest,
      ServiceUnavailable].map Kind.String
      = ["UNDEF", "TO001", "AUTH001", "AUTH002", "F001", "VAL001", "VAL002", "VAL003",
          "CIP001", "HTTP001", "SVC001"] ∧
    ["UNDEF", "TO001", "AUTH001", "AUTH002", "F001", "VAL001", "VAL002", "VAL003",
      "CIP001", "HTTP001", "SVC001"].Nodup ∧
    (∀ k : Kind, 10 < k.val → Kind.String k = "unknown error kind") := by
  refine ⟨by decide, by decide, by decide, ?_⟩
  intro k hk
  have h : ∀ c : Kind, c.val ≤ 10 → ¬ k = c := by
    intro c hc hkc
    subst hkc
    omega
  unfold Kind.String
  rw [if_neg (h Undefined (by decide)), if_neg (h Timeout (by decide)),
    if_neg (h IncorrectAuthToken (by decide)), if_neg (h ActionForbidden (by decide)),
    if_neg (h EntityNotFound (by decide)), if_neg (h MissingFields (by decide)),
    if_neg (h FieldValidation (by decide)), if_neg (h IncorrectFieldType (by decide)),
    if_neg (h CachingInProgress (by decide)), if_neg (h IncorrectHTTPRequest (by decide)),
    if_neg (h ServiceUnavailable (by decide))]

/-! ## Rendering: chains of empty nodes -/

/-- The buffer of a node whose cause is a structured error that is not zero: the buffer
of the node without cause, the separator, and the text of the cause. -/
theorem buffer_structured_cause (rt : Runtime) (d : Nat) (op o : Op) (k k' : Kind)
    (e : error) (cs c : List Nat) (t : String)
    (hnz : ¬ (o = "" ∧ k' = Undefined ∧ e = .nil)) :
    Error.buffer rt d ⟨op, k, .ptr o k' e c, cs⟩ t =
      appendStrToBuf (Error.buffer rt d ⟨op, k, .nil, cs⟩ "") Separator ++ t := by
  have hzf : (⟨o, k', e, c⟩ : Error).isZero = false := by
    cases hz : (⟨o, k', e, c⟩ : Error).isZero with
    | false => rfl
    | true => exact absurd ((isZero_iff o k' e c).1 hz) hnz
  simp only [Error.buffer, error.asError, hzf]
  simp

theorem zeroTail_eq_nil (frames : List (List Nat)) : zeroTail frames = .nil ↔ frames = [] := by
  cases frames <;> simp [zeroTail]

/-- A chain of empty nodes for which no frame is printed renders as `no error`. -/
theorem zeroTail_render (rt : Runtime) : ∀ (frames : List (List Nat)) (d : Nat),
    frames ≠ [] → silent rt d (zeroTail frames) = true →
    error.Error rt d (zeroTail frames) = "no error" := by
  intro frames
  induction frames with
  | nil => intro d h; exact absurd rfl h
  | cons cs rest ih =>
    intro d _ hs
    simp only [zeroTail, silent, Bool.and_eq_true, decide_eq_true_eq] at hs
    obtain ⟨hS, hrest⟩ := hs
    cases rest with
    | nil =>
      simp only [zeroTail]
      rw [Error_ptr, if_pos]
      exact (buffer_eq_empty_iff rt d "" Undefined .nil cs).2 ⟨hS, rfl, rfl, Or.inl rfl⟩
    | cons c2 rest2 =>
      have hin := ih (d + 1) (by simp) hrest
      by_cases hr2 : rest2 = []
      · subst hr2
        simp only [zeroTail]
        rw [Error_ptr, if_pos]
        exact (buffer_eq_empty_iff rt d "" Undefined _ cs).2
          ⟨hS, rfl, rfl, Or.inr (Or.inl ⟨c2, rfl⟩)⟩
      · have hnz : ¬ (("" : Op) = "" ∧ Undefined = Undefined ∧ zeroTail rest2 = .nil) :=
          fun h => hr2 ((zeroTail_eq_nil rest2).1 h.2.2)
        have hown : Error.buffer rt d ⟨"", Undefined, .nil, cs⟩ "" = "" := by
          simp [Error.buffer, hS]
        have hb : Error.buffer rt d ⟨"", Undefined, zeroTail (c2 :: rest2), cs⟩
            (error.Error rt (d + 1) (zeroTail (c2 :: rest2))) = "no error" := by
          rw [hin]
          simp only [zeroTail]
          rw [buffer_structured_cause rt d "" "" Undefined Undefined (zeroTail rest2) cs c2
            "no error" hnz, hown, appendStrToBuf_empty]
          rfl
        show error.Error rt d (.ptr "" Undefined (zeroTail (c2 :: rest2)) cs) = "no error"
        rw [Error_ptr, hb]
        decide

/-- C11, counterexample: the example of the claim.  With no frame printed,
`E(Op("a"), E(E(Op(""))))` renders as `"a:\n\tno error"`, while the node with operation
`a` and no cause renders as `"a"`. -/
theorem Error_zero_tail_counterexample :
    E [104, 7, 1] [.Op ""] = .ok (.ptr "" Undefined .nil [104, 7, 1]) ∧
    E [102, 7, 1] [.error (.ptr "" Undefined .nil [104, 7, 1])]
      = .ok (.ptr "" Undefined (.ptr "" Undefined .nil [104, 7, 1]) [102, 7, 1]) ∧
    E [101, 7, 1]
        [.Op "a", .error (.ptr "" Undefined (.ptr "" Undefined .nil [104, 7, 1]) [102, 7, 1])]
      = .ok (.ptr "a" Undefined
          (.ptr "" Undefined (.ptr "" Undefined .nil [104, 7, 1]) [102, 7, 1]) [101, 7, 1]) ∧
    silent sampleRuntime 0
        (.ptr "a" Undefined
          (.ptr "" Undefined (.ptr "" Undefined .nil [104, 7, 1]) [102, 7, 1]) [101, 7, 1])
      = true ∧
    error.Error sampleRuntime 0
        (.ptr "a" Undefined
          (.ptr "" Undefined (.ptr "" Undefined .nil [104, 7, 1]) [102, 7, 1]) [101, 7, 1])
      = "a:\n\tno error" ∧
    error.Error sampleRuntime 0 (.ptr "a" Undefined .nil [101, 7, 1]) = "a" :=
  ⟨rfl, rfl, rfl, by decide, by decide, by decide⟩

/-- C11, amended: a tail that is a single zero node (empty operation, kind `Undefined`,
no cause) is omitted, whatever the frames: the node renders as with no cause.  A tail of
two or more nodes with empty operation and kind `Undefined` is not a zero node (its first
node has a cause): with no frame printed for the tail, the node renders as its own part
(frames, operation, kind), followed by the separator when that part is not empty, and
`no error`. -/
theorem Error_zero_tail (rt : Runtime) (d : Nat) (op : Op) (k : Kind) (cs : List Nat)
    (c1 : List Nat) (rest : List (List Nat)) :
    error.Error rt d (.ptr op k (zeroTail [c1]) cs) = error.Error rt d (.ptr op k .nil cs) ∧
    (rest ≠ [] → silent rt (d + 1) (zeroTail (c1 :: rest)) = true →
      error.Error rt d (.ptr op k (zeroTail (c1 :: rest)) cs)
        = appendStrToBuf (Error.buffer rt d ⟨op, k, .nil, cs⟩ "") Separator ++ "no error") := by
  constructor
  · rw [Error_ptr rt d op k .nil cs, Error_ptr rt d op k (zeroTail [c1]) cs]
    simp [zeroTail, Error.buffer, error.asError, Error.isZero]
  · intro hrest hs
    have hin := zeroTail_render rt (c1 :: rest) (d + 1) (by simp) hs
    have hnz : ¬ (("" : Op) = "" ∧ Undefined = Undefined ∧ zeroTail rest = .nil) :=
      fun h => hrest ((zeroTail_eq_nil rest).1 h.2.2)
    have hb : Error.buffer rt d ⟨op, k, zeroTail (c1 :: rest), cs⟩
        (error.Error rt (d + 1) (zeroTail (c1 :: rest)))
        = appendStrToBuf (Error.buffer rt d ⟨op, k, .nil, cs⟩ "") Separator ++ "no error" := by
      rw [hin]
      simp only [zeroTail]
      exact buffer_structured_cause rt d op "" k Undefined (zeroTail rest) cs c1
        "no error" hnz
    rw [Error_ptr, hb, if_neg]
    intro h
    have := ((appendStrToBuf_append_eq_empty _ _ _).1 h).2
    exact absurd this (by decide)

/-- Witness for `Error_zero_tail`: the node with operation `a` over a single zero node
whose frames are printed (captured one call below `main.main`), and over a tail of two
empty nodes, all captured and rendered in `main.main`. -/
theorem Error_zero_tail_witness :
    (silent sampleRuntime 1 (zeroTail [[105, 104, 7, 1]]) = false ∧
      error.Error sampleRuntime 0
          (.ptr "a" Undefined (zeroTail [[105, 104, 7, 1]]) [101, 7, 1])
        = error.Error sampleRuntime 0 (.ptr "a" Undefined .nil [101, 7, 1])) ∧
    ([[104, 7, 1]] ≠ ([] : List (List Nat)) ∧
      silent sampleRuntime 1 (zeroTail [[102, 7, 1], [104, 7, 1]]) = true ∧
      error.Error sampleRuntime 0
          (.ptr "a" Undefined (zeroTail [[102, 7, 1], [104, 7, 1]]) [101, 7, 1])
        = appendStrToBuf
            (Error.buffer sampleRuntime 0 ⟨"a", Undefined, .nil, [101, 7, 1]⟩ "")
            Separator ++ "no error") :=
  ⟨⟨by decide,
      (Error_zero_tail sampleRuntime 0 "a" Undefined [101, 7, 1] [105, 104, 7, 1] []).1⟩,
    by decide, by decide,
    (Error_zero_tail sampleRuntime 0 "a" Undefined [101, 7, 1] [102, 7, 1] [[104, 7, 1]]).2
      (by decide) (by decide)⟩

/-! ## Construction: argument order -/

theorem foldl_last {α : Type} (f : Arg → Option α) (step : α → Arg → α)
    (hstep : ∀ acc a, step acc a = (f a).getD acc) :
    ∀ (args : List Arg) (init : α),
      args.foldl step init = ((args.filterMap f).getLast?).getD init := by
  intro args
  induction args with
  | nil => intro init; rfl
  | cons a rest ih =>
    intro init
    rw [List.foldl_cons, ih, hstep]
    cases hf : f a with
    | none => simp [List.filterMap_cons, hf]
    | some x =>
      simp only [List.filterMap_cons, hf, Option.getD_some, List.getLast?_cons]

theorem givenOp_eq (args : List Arg) :
    givenOp args = ((args.filterMap Arg.op?).getLast?).getD "" :=
  foldl_last Arg.op? _ (by intro acc a; cases a <;> rfl) args ""

theorem givenKind_eq (args : List Arg) :
    givenKind args = ((args.filterMap Arg.kind?).getLast?).getD Undefined :=
  foldl_last Arg.kind? _ (by intro acc a; cases a <;> rfl) args Undefined

theorem givenCause_eq (args : List Arg) :
    givenCause args = ((args.filterMap Arg.cause?).getLast?).getD .nil :=
  foldl_last Arg.cause? _ (by intro acc a; cases a <;> rfl) args .nil

theorem perm_eq_of_length_le_one {α : Type} {l' l : List α} (h : l'.Perm l)
    (hl : l.length ≤ 1) : l' = l := by
  match l, hl with
  | [], _ => exact List.perm_nil.1 h
  | [x], _ => exact List.perm_singleton.1 h

/-- With every argument recognised, the argument loop ends with the given operation,
kind and cause. -/
theorem argsLoop_recognised (args : List Arg) (h : ∀ a ∈ args, a.recognised = true) :
    argsLoop args ⟨"", 0, .nil, []⟩
      = .ok (.inr ⟨givenOp args, givenKind args, givenCause args, []⟩) := by
  obtain ⟨e, he⟩ := argsLoop_append_recognised args [] ⟨"", 0, .nil, []⟩ h
  rw [List.append_nil] at he
  have he' : argsLoop args ⟨"", 0, .nil, []⟩ = .ok (.inr e) := he
  rw [he', argsLoop_given args e he']

theorem built_is_node (stk : List Nat) (e : Error) :
    ∃ op K cause, built stk e = .ptr op K cause stk := by
  unfold built
  split
  · exact ⟨_, _, _, rfl⟩
  · exact ⟨_, _, _, rfl⟩

/-- C16: argument order does not matter.  For every list of recognised arguments holding
at most one operation label, at most one kind and at most one cause, `E` gives the same
result on every permutation of the list: the same node (operation, kind, cause with its
normalised kind, frames); it returns a node whenever the list is not empty and the stack
loop stays in range. -/
theorem E_argument_order (stk : List Nat) (args args' : List Arg)
    (hrec : ∀ a ∈ args, a.recognised = true)
    (hop : (args.filterMap Arg.op?).length ≤ 1)
    (hkind : (args.filterMap Arg.kind?).length ≤ 1)
    (hcause : (args.filterMap Arg.cause?).length ≤ 1)
    (hperm : args'.Perm args) :
    E stk args' = E stk args ∧
    (args ≠ [] → (stk.length = 0 ∨ (givenCause args).callers.length ≤ stk.length) →
      ∃ op K cause, E stk args' = .ok (.ptr op K cause stk)) := by
  have hrec' : ∀ a ∈ args', a.recognised = true := fun a ha => hrec a (hperm.mem_iff.1 ha)
  have h1 : givenOp args' = givenOp args := by
    rw [givenOp_eq, givenOp_eq, perm_eq_of_length_le_one (hperm.filterMap Arg.op?) hop]
  have h2 : givenKind args' = givenKind args := by
    rw [givenKind_eq, givenKind_eq, perm_eq_of_length_le_one (hperm.filterMap Arg.kind?) hkind]
  have h3 : givenCause args' = givenCause args := by
    rw [givenCause_eq, givenCause_eq,
      perm_eq_of_length_le_one (hperm.filterMap Arg.cause?) hcause]
  have hloop : argsLoop args' ⟨"", 0, .nil, []⟩ = argsLoop args ⟨"", 0, .nil, []⟩ := by
    rw [argsLoop_recognised args' hrec', argsLoop_recognised args hrec, h1, h2, h3]
  have hlen : args'.length = args.length := hperm.length_eq
  have hE : E stk args' = E stk args := by
    simp only [E, hlen, hloop]
  refine ⟨hE, ?_⟩
  intro hne hfit
  rw [hE, E_ok stk args _ hne (argsLoop_recognised args hrec) hfit]
  obtain ⟨op, K, cause, hb⟩ := built_is_node stk ⟨givenOp args, givenKind args, givenCause args, []⟩
  exact ⟨op, K, cause, by rw [hb]⟩

/-- Witness for `E_argument_order`: `E(cause, EntityNotFound, Op("save"))` and
`E(Op("save"), EntityNotFound, cause)`. -/
theorem E_argument_order_witness :
    E [101, 7, 1]
        [.error (.ptr "open" Undefined (.errorString "x") [102, 7, 1]), .Kind EntityNotFound,
          .Op "save"]
      = E [101, 7, 1]
        [.Op "save", .Kind EntityNotFound,
          .error (.ptr "open" Undefined (.errorString "x") [102, 7, 1])] :=
  (E_argument_order [101, 7, 1]
    [.Op "save", .Kind EntityNotFound,
      .error (.ptr "open" Undefined (.errorString "x") [102, 7, 1])]
    [.error (.ptr "open" Undefined (.errorString "x") [102, 7, 1]), .Kind EntityNotFound,
      .Op "save"]
    (by decide) (by decide) (by decide) (by decide) (by decide)).1

/-! ## Stack reconciliation -/

/-- On two stacks of the same length the counting loop compares every frame of the new
stack with itself, so it counts all of them. -/
theorem populateLoop_same_length (a b : List Nat) (hlen : b.length = a.length) :
    ∀ (rem i : Nat) (ok : Bool), i + rem = a.length →
      populateLoop a b rem i ok = .ok (a.length, ok || decide (0 < rem)) := by
  intro rem
  induction rem with
  | zero =>
    intro i ok hi
    have : i = a.length := by omega
    subst this
    simp [populateLoop]
  | succ n ih =>
    intro i ok hi
    have h1 : a.length - 1 - i < a.length := by omega
    unfold populateLoop
    rw [hlen, List.getElem?_eq_getElem h1]
    simp only [ne_eq, not_true_eq_false, if_false]
    rw [ih (i + 1) true (by omega)]
    simp

/-- The counting loop faults at its first round when the stack of the cause is longer
than the new, non-empty stack. -/
theorem populateLoop_fault (a b : List Nat) (ha : a ≠ []) (hlen : a.length < b.length) :
    populateLoop a b (min a.length b.length) 0 false = .error "index out of range" := by
  have hpos : 0 < a.length := List.length_pos.2 ha
  have hmin : min a.length b.length = (a.length - 1) + 1 := by omega
  have h1 : a.length - 1 - 0 < a.length := by omega
  have h2 : a.length ≤ b.length - 1 - 0 := by omega
  rw [hmin]
  unfold populateLoop
  rw [List.getElem?_eq_getElem h1, List.getElem?_eq_none h2]

/-- `E` panics when its cause is a structured error whose stack is longer than the new,
non-empty stack. -/
theorem E_stack_fault (stk : List Nat) (args : List Arg) (e : Error) (hne : args ≠ [])
    (hloop : argsLoop args ⟨"", 0, .nil, []⟩ = .ok (.inr e))
    (hs : stk ≠ []) (hstruct : e.Err.isStructured = true)
    (hlen : stk.length < e.Err.callers.length) :
    E stk args = .error "index out of range" := by
  have hl : ¬ args.length = 0 := by simpa using hne
  cases hE : e.Err with
  | nil => rw [hE] at hstruct; cases hstruct
  | errorString s => rw [hE] at hstruct; cases hstruct
  | ptr op k err cs =>
    have hlen' : stk.length < cs.length := by simpa [hE, error.callers] using hlen
    have hpop : e.populateStack stk = .error "index out of range" := by
      simp only [Error.populateStack, hE, error.asError, populateLoop_fault stk cs hs hlen']
    simp only [E, hl, if_false, hloop, hpop]

/-- C18: evaluation of the counting loop of `populateStack` where it leaves the longest
common suffix.  For the new stack `[101, 7, 1]` and the cause's stack `[102, 7, 1]`,
which share their last two frames, the loop ends with `i = 3`; for `[1, 2]` and `[3, 4]`,
which share none, it ends with `i = 2` and the flag true. -/
theorem populateLoop_not_common_suffix :
    populateLoop [101, 7, 1] [102, 7, 1] (min 3 3) 0 false = .ok (3, true) ∧
    commonSuffixLen [101, 7, 1] [102, 7, 1] = 2 ∧
    populateLoop [1, 2] [3, 4] (min 2 2) 0 false = .ok (2, true) ∧
    commonSuffixLen [1, 2] [3, 4] = 0 :=
  ⟨rfl, by decide, rfl, by decide⟩

/-- C19: evaluation of `E` where it aborts on a non-empty list of recognised arguments.
The inner error is built in a function called from `main.main` (stack of four frames),
the outer one in `main.main` (three frames): wrapping the inner error panics with an
index out of range. -/
theorem E_index_out_of_range :
    E [201, 102, 7, 1] [.Op "open", .string "x"]
      = .ok (.ptr "open" Undefined (.errorString "x") [201, 102, 7, 1]) ∧
    E [101, 7, 1]
        [.Op "save", .error (.ptr "open" Undefined (.errorString "x") [201, 102, 7, 1])]
      = .error "index out of range" :=
  ⟨rfl, rfl⟩

/-! ## Printing: elision of a shared path -/

theorem indexAny_spec : ∀ (l : List Char) (j : Nat), indexAny l = some j →
    ∃ c, l[j]? = some c ∧ (c = '.' ∨ c = '/') := by
  intro l
  induction l with
  | nil => intro j h; simp [indexAny] at h
  | cons c cs ih =>
    intro j h
    unfold indexAny at h
    by_cases hc : c = '.' ∨ c = '/'
    · rw [if_pos hc] at h
      cases h
      exact ⟨c, by simp, hc⟩
    · rw [if_neg hc] at h
      cases hi : indexAny cs with
      | none => rw [hi] at h; cases h
      | some i =>
        rw [hi] at h
        cases h
        obtain ⟨c', h1, h2⟩ := ih i hi
        exact ⟨c', by simpa using h1, h2⟩

theorem trimLoop_ge (prev name : List Char) : ∀ (fuel trim : Nat),
    trim ≤ trimLoop prev name fuel trim := by
  intro fuel
  induction fuel with
  | zero => intro trim; exact Nat.le_refl _
  | succ n ih =>
    intro trim
    unfold trimLoop
    split
    · exact Nat.le_refl _
    · split
      · exact Nat.le_refl _
      · exact Nat.le_trans (by omega) (ih _)

/-- The invariant of the `trim` loop: `trim` is inside the name, and when it is positive
the character before it is a separator and the name up to that separator begins `prev`. -/
theorem trimLoop_inv (prev name : List Char) : ∀ (fuel trim : Nat),
    (trim ≤ name.length ∧
      (0 < trim → (∃ c, name[trim - 1]? = some c ∧ (c = '.' ∨ c = '/')) ∧
        name.take (trim - 1) <+: prev)) →
    (trimLoop prev name fuel trim ≤ name.length ∧
      (0 < trimLoop prev name fuel trim →
        (∃ c, name[trimLoop prev name fuel trim - 1]? = some c ∧ (c = '.' ∨ c = '/')) ∧
        name.take (trimLoop prev name fuel trim - 1) <+: prev)) := by
  intro fuel
  induction fuel with
  | zero => intro trim h; exact h
  | succ n ih =>
    intro trim h
    unfold trimLoop
    split
    · exact h
    · rename_i j hj
      split
      · exact h
      · rename_i hp
        have hp' : name.take (j + trim) <+: prev := by
          simpa [List.isPrefixOf_iff_prefix] using hp
        obtain ⟨c, hc, hsep⟩ := indexAny_spec _ j hj
        have hc' : name[trim + j]? = some c := by
          rw [← hc, List.getElem?_drop]
        have hlt : trim + j < name.length := by
          by_contra hge
          rw [List.getElem?_eq_none (by omega)] at hc'
          cases hc'
        apply ih
        refine ⟨by omega, fun _ => ⟨⟨c, ?_, hsep⟩, ?_⟩⟩
        · have : trim + (j + 1) - 1 = trim + j := by omega
          rw [this]; exact hc'
        · have : trim + (j + 1) - 1 = j + trim := by omega
          rw [this]; exact hp'

/-- The `trim` loop ends by one of its two `break`s, never for lack of fuel: at the final
`trim` the rest of the name has no separator, or the name up to its next separator does
not begin `prev`. -/
theorem trimLoop_stops (prev name : List Char) : ∀ (fuel trim : Nat),
    name.length - trim < fuel → trim ≤ name.length →
    (indexAny (name.drop (trimLoop prev name fuel trim)) = none ∨
      ∃ j, indexAny (name.drop (trimLoop prev name fuel trim)) = some j ∧
        ¬ name.take (j + trimLoop prev name fuel trim) <+: prev) := by
  intro fuel
  induction fuel with
  | zero => intro trim h _; omega
  | succ n ih =>
    intro trim hfuel hle
    unfold trimLoop
    split
    · rename_i hnone
      exact Or.inl hnone
    · rename_i j hj
      split
      · rename_i hp
        refine Or.inr ⟨j, hj, ?_⟩
        intro hpre
        rw [← List.isPrefixOf_iff_prefix] at hpre
        simp [hpre] at hp
      · obtain ⟨c, hc, _⟩ := indexAny_spec _ j hj
        have hc' : name[trim + j]? = some c := by
          rw [← hc, List.getElem?_drop]
        have hlt : trim + j < name.length := by
          by_contra hge
          rw [List.getElem?_eq_none (by omega)] at hc'
          cases hc'
        exact ih _ (by omega) (by omega)

/-- The value of `trim` is positive exactly when the first round of the loop goes
through. -/
theorem trimLoop_pos_iff (prev name : List Char) (fuel : Nat) :
    0 < trimLoop prev name (fuel + 1) 0 ↔
      ∃ j, indexAny name = some j ∧ name.take j <+: prev := by
  unfold trimLoop
  simp only [List.drop_zero, Nat.add_zero, Nat.zero_add]
  cases hj : indexAny name with
  | none => simp
  | some j =>
    simp only [Option.some.injEq, exists_eq_left']
    by_cases hp : (name.take j).isPrefixOf prev = true
    · have hpre : name.take j <+: prev := List.isPrefixOf_iff_prefix.1 hp
      simp only [hp, Bool.not_true, Bool.false_eq_true, if_false, hpre, iff_true]
      exact Nat.lt_of_lt_of_le (by omega) (trimLoop_ge prev name fuel (j + 1))
    · have hpre : ¬ name.take j <+: prev := fun h => hp (List.isPrefixOf_iff_prefix.2 h)
      simp [hp, hpre]

/-- C20, counterexample: after `github.com/x/pkg.Func` the name
`github.com/x/pkg/sub.Func` gets `trim = 17`, and the elided `github.com/x/pkg/` is not a
prefix of the previous name; after `errors_test.TestE` the name `errors.E` gets
`trim = 7`, so `...` is printed although the first segments `errors_test` and `errors`
differ. -/
theorem trimOf_not_shared_counterexample :
    trimOf "github.com/x/pkg.Func" "github.com/x/pkg/sub.Func" = 17 ∧
    ("github.com/x/pkg/sub.Func".data.take 17).isPrefixOf "github.com/x/pkg.Func".data
      = false ∧
    trimOf "errors_test.TestE" "errors.E" = 7 ∧
    ("errors.E".data.take 7).isPrefixOf "errors_test.TestE".data = false := by
  decide

/-- C20, amended: the part of the name that `printStack` replaces by `...`, `name[:trim]`,
is made of whole leading segments of the name, each ended by `.` or `/`; without its last
separator it is a prefix of the previous name `prev` (the last separator is not compared
with `prev`).  `trim` is positive, so that `...` is printed, if and only if the name has a
separator and the name up to its first separator is a prefix of `prev`; nothing is elided
when `prev` is empty and the name does not start with a separator.  The loop ends by one
of its `break`s. -/
theorem trimOf_elides (prev name : String) :
    trimOf prev name ≤ name.length ∧
    (0 < trimOf prev name →
      (∃ c, name.data[trimOf prev name - 1]? = some c ∧ (c = '.' ∨ c = '/')) ∧
      name.data.take (trimOf prev name - 1) <+: prev.data) ∧
    (0 < trimOf prev name ↔
      ∃ j, indexAny name.data = some j ∧ name.data.take j <+: prev.data) ∧
    (prev = "" → (∀ c, name.data.head? = some c → c ≠ '.' ∧ c ≠ '/') →
      trimOf prev name = 0) ∧
    (indexAny (name.data.drop (trimOf prev name)) = none ∨
      ∃ j, indexAny (name.data.drop (trimOf prev name)) = some j ∧
        ¬ name.data.take (j + trimOf prev name) <+: prev.data) := by
  have hinv := trimLoop_inv prev.data name.data (name.length + 1) 0
    ⟨Nat.zero_le _, fun h => absurd h (Nat.lt_irrefl 0)⟩
  have hpos := trimLoop_pos_iff prev.data name.data name.length
  have hstop := trimLoop_stops prev.data name.data (name.length + 1) 0
    (by show name.data.length - 0 < name.data.length + 1; omega) (Nat.zero_le _)
  refine ⟨hinv.1, hinv.2, hpos, ?_, hstop⟩
  intro hprev hhead
  by_contra hne
  have hlt : 0 < trimOf prev name := Nat.pos_of_ne_zero hne
  obtain ⟨j, hj, hpre⟩ := hpos.1 hlt
  subst hprev
  have hnil : name.data.take j = [] := List.prefix_nil.1 hpre
  obtain ⟨c, hc, hsep⟩ := indexAny_spec _ j hj
  cases hd : name.data with
  | nil => rw [hd] at hc; simp at hc
  | cons x xs =>
    rw [hd] at hc hnil
    have hj0 : j = 0 := by
      cases j with
      | zero => rfl
      | succ n => simp at hnil
    subst hj0
    have hx : x = c := by simpa using hc
    have := hhead x (by rw [hd]; rfl)
    rw [hx] at this
    rcases hsep with h | h
    · exact this.1 h
    · exact this.2 h

/-! ## Construction over a heap: the wrapped argument is left unchanged -/

theorem Heap.update_length (h : Heap) (a : Nat) (f : Cell → Cell) :
    (h.update a f).length = h.length := by
  unfold Heap.update
  split <;> simp

theorem Heap.update_getElem?_of_ne (h : Heap) (a b : Nat) (f : Cell → Cell) (hab : a ≠ b) :
    (h.update a f)[b]? = h[b]? := by
  unfold Heap.update
  split
  · exact List.getElem?_set_ne hab
  · rfl

theorem Heap.update_getElem?_self (h : Heap) (a : Nat) (f : Cell → Cell) (c : Cell)
    (hc : (h.update a f)[a]? = some c) : ∃ c0, h[a]? = some c0 ∧ c = f c0 := by
  unfold Heap.update at hc
  split at hc
  · rename_i c0 h0
    have hlt : a < h.length := by
      by_contra hge
      rw [List.getElem?_eq_none (by omega)] at h0
      cases h0
    rw [List.getElem?_set_self hlt] at hc
    exact ⟨c0, h0, (Option.some.inj hc).symm⟩
  · rename_i h0
    rw [h0] at hc
    cases hc

theorem heapNormalise_getElem?_of_ne (h : Heap) (ea p a : Nat) (h1 : ea ≠ a) (h2 : p ≠ a) :
    (heapNormalise h ea p)[a]? = h[a]? := by
  unfold heapNormalise
  simp only
  split <;> split <;>
    simp only [Heap.update_getElem?_of_ne _ _ _ _ h1, Heap.update_getElem?_of_ne _ _ _ _ h2]

theorem Heap.update_Err (h : Heap) (a b : Nat) (f : Cell → Cell) (c : Cell)
    (hc : (h.update a f)[b]? = some c) (hf : ∀ c, (f c).Err = c.Err) :
    ∃ c0, h[b]? = some c0 ∧ c.Err = c0.Err := by
  by_cases hab : a = b
  · subst hab
    obtain ⟨c0, h0, rfl⟩ := Heap.update_getElem?_self h a f c hc
    exact ⟨c0, h0, hf c0⟩
  · rw [Heap.update_getElem?_of_ne _ _ _ _ hab] at hc
    exact ⟨c, hc, rfl⟩

/-- The kind normalisation writes to no field `Err`. -/
theorem heapNormalise_Err (h : Heap) (ea p b : Nat) (c : Cell)
    (hc : (heapNormalise h ea p)[b]? = some c) : ∃ c0, h[b]? = some c0 ∧ c.Err = c0.Err := by
  unfold heapNormalise at hc
  simp only at hc
  split at hc
  · rename_i hk
    split at hc
    · obtain ⟨c1, h1, e1⟩ := Heap.update_Err _ _ _ _ c hc (fun _ => rfl)
      obtain ⟨c2, h2, e2⟩ := Heap.update_Err _ _ _ _ c1 h1 (fun _ => rfl)
      obtain ⟨c3, h3, e3⟩ := Heap.update_Err _ _ _ _ c2 h2 (fun _ => rfl)
      exact ⟨c3, h3, by rw [e1, e2, e3]⟩
    · obtain ⟨c1, h1, e1⟩ := Heap.update_Err _ _ _ _ c hc (fun _ => rfl)
      exact ⟨c1, h1, e1⟩
  · split at hc
    · obtain ⟨c1, h1, e1⟩ := Heap.update_Err _ _ _ _ c hc (fun _ => rfl)
      obtain ⟨c2, h2, e2⟩ := Heap.update_Err _ _ _ _ c1 h1 (fun _ => rfl)
      exact ⟨c2, h2, by rw [e1, e2]⟩
    · exact ⟨c, hc, rfl⟩

/-- The argument loop over a heap writes only to `e` and to the copies it allocates, and
it leaves in `e.Err` no address other than that of such a copy. -/
theorem heapArgsLoop_frame (n ea : Nat) (hn : n ≤ ea) :
    ∀ (args : List HArg) (h h' : Heap) (res : Option Ref),
      ea < h.length →
      (∀ c p, h[ea]? = some c → c.Err = .addr p → ea < p) →
      heapArgsLoop ea args h = .ok (h', res) →
      (∀ a, a < n → h'[a]? = h[a]?) ∧ ea < h'.length ∧
        (∀ c p, h'[ea]? = some c → c.Err = .addr p → ea < p) := by
  intro args
  induction args with
  | nil =>
    intro h h' res hlt hinv hL
    simp only [heapArgsLoop, Except.ok.injEq, Prod.mk.injEq] at hL
    obtain ⟨rfl, -⟩ := hL
    exact ⟨fun _ _ => rfl, hlt, hinv⟩
  | cons x rest ih =>
    intro h h' res hlt hinv hL
    have keep : ∀ (f : Cell → Cell), (∀ c, (f c).Err = c.Err ∨ ∃ s, (f c).Err = .leaf s) →
        heapArgsLoop ea rest (h.update ea f) = .ok (h', res) →
        (∀ a, a < n → h'[a]? = h[a]?) ∧ ea < h'.length ∧
          (∀ c p, h'[ea]? = some c → c.Err = .addr p → ea < p) := by
      intro f hf hL'
      have hinv' : ∀ c p, (h.update ea f)[ea]? = some c → c.Err = .addr p → ea < p := by
        intro c p hc hp
        obtain ⟨c0, h0, rfl⟩ := Heap.update_getElem?_self h ea f c hc
        rcases hf c0 with hk | ⟨s, hs⟩
        · exact hinv c0 p h0 (hk ▸ hp)
        · rw [hs] at hp; cases hp
      obtain ⟨i1, i2, i3⟩ := ih (h.update ea f) h' res
        (by rw [Heap.update_length]; exact hlt) hinv' hL'
      refine ⟨fun a ha => ?_, i2, i3⟩
      rw [i1 a ha, Heap.update_getElem?_of_ne _ _ _ _ (by omega)]
    cases x with
    | Op o => exact keep (fun c => { c with Op := o }) (fun c => Or.inl rfl) hL
    | string s => exact keep (fun c => { c with Err := .leaf s }) (fun c => Or.inr ⟨s, rfl⟩) hL
    | Kind k => exact keep (fun c => { c with Kind := k }) (fun c => Or.inl rfl) hL
    | other T v =>
      simp only [heapArgsLoop, Except.ok.injEq, Prod.mk.injEq] at hL
      obtain ⟨rfl, -⟩ := hL
      exact ⟨fun _ _ => rfl, hlt, hinv⟩
    | error r =>
      cases r with
      | nil =>
        simp only [heapArgsLoop, Except.ok.injEq, Prod.mk.injEq] at hL
        obtain ⟨rfl, -⟩ := hL
        exact ⟨fun _ _ => rfl, hlt, hinv⟩
      | leaf s => exact keep (fun c => { c with Err := .leaf s }) (fun c => Or.inr ⟨s, rfl⟩) hL
      | addr a0 =>
        simp only [heapArgsLoop] at hL
        split at hL
        · cases hL
        · rename_i eCopy _
          have hinv' : ∀ c p,
              ((h ++ [eCopy]).update ea fun c => { c with Err := .addr h.length })[ea]? = some c →
              c.Err = .addr p → ea < p := by
            intro c p hc hp
            obtain ⟨c0, _, rfl⟩ := Heap.update_getElem?_self _ ea _ c hc
            simp only [Ref.addr.injEq] at hp
            omega
          obtain ⟨i1, i2, i3⟩ := ih _ h' res
            (by rw [Heap.update_length, List.length_append]; omega) hinv' hL
          refine ⟨fun a ha => ?_, i2, i3⟩
          rw [i1 a ha, Heap.update_getElem?_of_ne _ _ _ _ (by omega),
            List.getElem?_append_left (by omega)]

/-- C17: `E` leaves the wrapped argument unchanged.  Whenever `E` returns, every struct
that was in the heap before the call, in particular the struct `p` a `*Error` argument
points to and the structs its cause points to, holds the same operation, kind, cause and
frames after the call; the cause of the new node is a struct allocated by the call, so
the writes of the kind normalisation go to the copy. -/
theorem EHeap_frame (h : Heap) (stk : List Nat) (args : List HArg) (h' : Heap) (r : Ref)
    (hE : EHeap h stk args = .ok (h', r)) :
    (∀ a, a < h.length → h'[a]? = h[a]?) ∧
    (∀ c p, r = .addr h.length → h'[h.length]? = some c → c.Err = .addr p →
      h.length < p) := by
  unfold EHeap at hE
  split at hE
  · cases hE
  · simp only at hE
    have hlt0 : h.length < (h ++ [(⟨"", 0, .nil, []⟩ : Cell)]).length := by simp
    have hinv0 : ∀ c p, (h ++ [(⟨"", 0, .nil, []⟩ : Cell)])[h.length]? = some c →
        c.Err = .addr p → h.length < p := by
      intro c p hc hp
      simp only [List.getElem?_concat_length, Option.some.injEq] at hc
      subst hc
      cases hp
    split at hE
    · cases hE
    · rename_i hL leaf hloop
      simp only [Except.ok.injEq, Prod.mk.injEq] at hE
      obtain ⟨rfl, rfl⟩ := hE
      obtain ⟨i1, i2, i3⟩ := heapArgsLoop_frame h.length h.length (Nat.le_refl _) args _ _ _
        hlt0 hinv0 hloop
      refine ⟨fun a ha => ?_, fun c p _ hc hp => i3 c p hc hp⟩
      rw [i1 a ha, List.getElem?_append_left ha]
    · rename_i hL hloop
      obtain ⟨i1, i2, i3⟩ := heapArgsLoop_frame h.length h.length (Nat.le_refl _) args _ _ _
        hlt0 hinv0 hloop
      have hpre : ∀ a, a < h.length →
          (hL.update h.length fun c => { c with callers := stk })[a]? = h[a]? := by
        intro a ha
        rw [Heap.update_getElem?_of_ne _ _ _ _ (by omega), i1 a ha,
          List.getElem?_append_left ha]
      have hinv2 : ∀ c p,
          (hL.update h.length fun c => { c with callers := stk })[h.length]? = some c →
          c.Err = .addr p → h.length < p := by
        intro c p hc hp
        obtain ⟨c0, h0, rfl⟩ := Heap.update_getElem?_self _ _ _ c hc
        exact i3 c0 p h0 hp
      split at hE
      · rename_i o k p cs hcell
        have hp : h.length < p := hinv2 _ p hcell rfl
        split at hE
        · cases hE
        · split at hE
          · cases hE
          · simp only [Except.ok.injEq, Prod.mk.injEq] at hE
            obtain ⟨rfl, rfl⟩ := hE
            refine ⟨fun a ha => ?_, fun c q _ hc hq => ?_⟩
            · rw [heapNormalise_getElem?_of_ne _ _ _ _ (by omega) (by omega), hpre a ha]
            · obtain ⟨c0, h0, e0⟩ := heapNormalise_Err _ _ _ _ c hc
              exact hinv2 c0 q h0 (e0 ▸ hq)
      · simp only [Except.ok.injEq, Prod.mk.injEq] at hE
        obtain ⟨rfl, rfl⟩ := hE
        exact ⟨hpre, fun c p _ hc hp => hinv2 c p hc hp⟩

/-- Witness for `EHeap_frame`: `E(EntityNotFound, p)` where `p`, at address `0`, has kind
`EntityNotFound`.  The normalisation clears the kind of the copy at address `2`; the
struct at address `0` keeps its kind; read back from the heap, the result is the value
`E` returns on the value of `p`. -/
theorem EHeap_frame_witness :
    EHeap [⟨"open", EntityNotFound, .leaf "x", [102, 7, 1]⟩] [101, 7, 1]
        [.Kind EntityNotFound, .error (.addr 0)]
      = .ok ([⟨"open", EntityNotFound, .leaf "x", [102, 7, 1]⟩,
              ⟨"", EntityNotFound, .addr 2, [101, 7, 1]⟩,
              ⟨"open", Undefined, .leaf "x", [102, 7, 1]⟩], .addr 1) ∧
    ([⟨"open", EntityNotFound, .leaf "x", [102, 7, 1]⟩,
      ⟨"", EntityNotFound, .addr 2, [101, 7, 1]⟩,
      ⟨"open", Undefined, .leaf "x", [102, 7, 1]⟩] : Heap)[0]?
      = ([⟨"open", EntityNotFound, .leaf "x", [102, 7, 1]⟩] : Heap)[0]? ∧
    E [101, 7, 1]
        [.Kind EntityNotFound,
          .error (Heap.read [⟨"open", EntityNotFound, .leaf "x", [102, 7, 1]⟩] 1 (.addr 0))]
      = .ok (Heap.read
          [⟨"open", EntityNotFound, .leaf "x", [102, 7, 1]⟩,
            ⟨"", EntityNotFound, .addr 2, [101, 7, 1]⟩,
            ⟨"open", Undefined, .leaf "x", [102, 7, 1]⟩] 2 (.addr 1)) :=
  ⟨rfl,
    (EHeap_frame [⟨"open", EntityNotFound, .leaf "x", [102, 7, 1]⟩] [101, 7, 1]
      [.Kind EntityNotFound, .error (.addr 0)] _ (.addr 1) rfl).1 0 (by decide),
    rfl⟩

/-! ## The two embeddings of `E` agree -/

theorem Repr_mono (n n' : Nat) (h h' : Heap) (hpre : ∀ a, a < n → h'[a]? = h[a]?)
    (hn : n ≤ n') : ∀ (r : Ref) (v : error), Repr n h r v → Repr n' h' r v := by
  intro r v hr
  induction hr with
  | nil => exact Repr.nil
  | leaf s => exact Repr.leaf s
  | addr a c v ha hc _ ih => exact Repr.addr a c v (by omega) (by rw [hpre a ha]; exact hc) ih

theorem Heap.update_getElem? (h : Heap) (a b : Nat) (f : Cell → Cell) :
    (h.update a f)[b]? = if a = b then (h[b]?).map f else h[b]? := by
  by_cases hab : a = b
  · subst hab
    simp only [if_true]
    unfold Heap.update
    cases hc : h[a]? with
    | none => simp [hc]
    | some c =>
      have hlt : a < h.length := by
        by_contra hge
        rw [List.getElem?_eq_none (by omega)] at hc
        cases hc
      simp [List.getElem?_set_self hlt]
  · rw [if_neg hab, Heap.update_getElem?_of_ne _ _ _ _ hab]

theorem Heap.kindAt_of (h : Heap) (a : Nat) (c : Cell) (hc : h[a]? = some c) :
    h.kindAt a = c.Kind := by
  simp [Heap.kindAt, hc]

/-- The structs at `ea` and `p` after the kind normalisation. -/
theorem heapNormalise_cells (h : Heap) (ea p : Nat) (ce cp : Cell) (hne : ea ≠ p)
    (he : h[ea]? = some ce) (hp : h[p]? = some cp) :
    (heapNormalise h ea p)[ea]? =
      some { ce with Kind := if ce.Kind = Undefined then cp.Kind else ce.Kind } ∧
    (heapNormalise h ea p)[p]? =
      some { cp with Kind := if ce.Kind = Undefined ∨ cp.Kind = ce.Kind then Undefined
                             else cp.Kind } := by
  have hne' : p ≠ ea := fun h => hne h.symm
  unfold heapNormalise
  simp only
  rw [Heap.kindAt_of h p cp hp, Heap.kindAt_of h ea ce he]
  by_cases h1 : cp.Kind = ce.Kind
  · rw [if_pos h1]
    have hA_e : (h.update p fun c => { c with Kind := Undefined })[ea]? = some ce := by
      rw [Heap.update_getElem?, if_neg hne', he]
    have hA_p : (h.update p fun c => { c with Kind := Undefined })[p]?
        = some { cp with Kind := Undefined } := by
      rw [Heap.update_getElem?, if_pos rfl, hp]; rfl
    rw [Heap.kindAt_of _ ea ce hA_e, Heap.kindAt_of _ p _ hA_p]
    by_cases h2 : ce.Kind = Undefined
    · rw [if_pos h2]
      simp only [Heap.update_getElem?, if_neg hne, if_neg hne', if_true, hA_e, hA_p, hp, he,
        Option.map_some', h2, h1, true_or, if_true]
      rw [h2] at h1
      simp [h1]
    · rw [if_neg h2]
      simp [hA_e, hA_p, h2, h1]
  · rw [if_neg h1]
    rw [Heap.kindAt_of h ea ce he, Heap.kindAt_of h p cp hp]
    by_cases h2 : ce.Kind = Undefined
    · rw [if_pos h2]
      simp only [Heap.update_getElem?, if_neg hne, if_neg hne', if_true, hp, he,
        Option.map_some', h2, true_or]
      simp
    · rw [if_neg h2]
      simp [he, hp, h1, h2]

theorem CauseRel_update (n : Nat) (h hc : Heap) (f : Cell → Cell) (r : Ref) (v : error)
    (hr : CauseRel n h hc r v) : CauseRel n h (hc.update n f) r v := by
  cases r with
  | nil => exact hr
  | leaf s => exact hr
  | addr p =>
    obtain ⟨hp, cp, v', h1, h2, h3⟩ := hr
    exact ⟨hp, cp, v', by rw [Heap.update_getElem?_of_ne _ _ _ _ (by omega)]; exact h1, h2, h3⟩

theorem Sim_update (n : Nat) (h hc : Heap) (e e' : Error) (f : Cell → Cell)
    (hs : Sim n h hc e)
    (hf : ∀ c, c.Op = e.Op → c.Kind = e.Kind → c.callers = e.callers →
      (f c).Op = e'.Op ∧ (f c).Kind = e'.Kind ∧ (f c).callers = e'.callers)
    (hErr : ∀ c, (f c).Err = c.Err) (hgErr : e'.Err = e.Err) :
    Sim n h (hc.update n f) e' := by
  obtain ⟨hlt, hpre, c, hc0, h1, h2, h3, hcr⟩ := hs
  refine ⟨by rw [Heap.update_length]; exact hlt, fun a ha => ?_, f c, ?_, (hf c h1 h2 h3).1,
    (hf c h1 h2 h3).2.1, (hf c h1 h2 h3).2.2, ?_⟩
  · rw [Heap.update_getElem?_of_ne _ _ _ _ (by omega)]; exact hpre a ha
  · rw [Heap.update_getElem?, if_pos rfl, hc0]; rfl
  · rw [hErr, hgErr]
    exact CauseRel_update n h hc f _ _ hcr

theorem Sim_leaf (n : Nat) (h hc : Heap) (e : Error) (s : String) (hs : Sim n h hc e) :
    Sim n h (hc.update n fun c => { c with Err := .leaf s })
      { e with Err := .errorString s } := by
  obtain ⟨hlt, hpre, c, hc0, h1, h2, h3, _⟩ := hs
  refine ⟨by rw [Heap.update_length]; exact hlt, fun a ha => ?_, { c with Err := .leaf s },
    ?_, h1, h2, h3, rfl⟩
  · rw [Heap.update_getElem?_of_ne _ _ _ _ (by omega)]; exact hpre a ha
  · rw [Heap.update_getElem?, if_pos rfl, hc0]; rfl

theorem Sim_copy (n : Nat) (h hc : Heap) (e : Error) (c0 : Cell) (v' : error)
    (hs : Sim n h hc e) (hv : Repr n h c0.Err v') :
    Sim n h ((hc ++ [c0]).update n fun c => { c with Err := .addr hc.length })
      { e with Err := .ptr c0.Op c0.Kind v' c0.callers } := by
  obtain ⟨hlt, hpre, c, hc0, h1, h2, h3, _⟩ := hs
  have hn : (hc ++ [c0])[n]? = some c := by
    rw [List.getElem?_append_left hlt]; exact hc0
  refine ⟨by rw [Heap.update_length, List.length_append]; omega, fun a ha => ?_,
    { c with Err := .addr hc.length }, ?_, h1, h2, h3, ?_⟩
  · rw [Heap.update_getElem?_of_ne _ _ _ _ (by omega), List.getElem?_append_left (by omega)]
    exact hpre a ha
  · rw [Heap.update_getElem?, if_pos rfl, hn]; rfl
  · refine ⟨hlt, c0, v', ?_, rfl, hv⟩
    rw [Heap.update_getElem?_of_ne _ _ _ _ (by omega)]
    simp

/-- The argument loop over the heap follows the argument loop by value. -/
theorem heapArgsLoop_sim (n : Nat) (h : Heap) :
    ∀ (hargs : List HArg) (vargs : List Arg), List.Forall₂ (ArgRepr n h) hargs vargs →
      ∀ (hc : Heap) (e : Error), Sim n h hc e →
        (∀ leafv, argsLoop vargs e = .ok (.inl leafv) →
          ∃ hc' s, heapArgsLoop n hargs hc = .ok (hc', some (.leaf s)) ∧
            leafv = .errorString s) ∧
        (∀ e', argsLoop vargs e = .ok (.inr e') →
          ∃ hc', heapArgsLoop n hargs hc = .ok (hc', none) ∧ Sim n h hc' e') ∧
        (∀ m, argsLoop vargs e ≠ .error m) := by
  intro hargs vargs hrel
  induction hrel with
  | nil =>
    intro hc e hs
    refine ⟨fun leafv hl => ?_, fun e' he => ?_, fun m hm => ?_⟩
    · simp [argsLoop] at hl
    · simp only [argsLoop, Except.ok.injEq, Sum.inr.injEq] at he
      subst he
      exact ⟨hc, rfl, hs⟩
    · simp [argsLoop] at hm
  | cons hx _ ih =>
    intro hc e hs
    cases hx with
    | Op o =>
      exact ih _ _ (Sim_update n h hc e { e with Op := o } (fun c => { c with Op := o }) hs
        (fun c _ h2 h3 => ⟨rfl, h2, h3⟩) (fun _ => rfl) rfl)
    | string s => exact ih _ _ (Sim_leaf n h hc e s hs)
    | Kind k =>
      exact ih _ _ (Sim_update n h hc e { e with Kind := k } (fun c => { c with Kind := k }) hs
        (fun c h1 _ h3 => ⟨h1, rfl, h3⟩) (fun _ => rfl) rfl)
    | other T v =>
      refine ⟨fun leafv hl => ?_, fun e' he => ?_, fun m hm => ?_⟩
      · simp only [argsLoop, Except.ok.injEq, Sum.inl.injEq] at hl
        exact ⟨hc, _, rfl, hl.symm⟩
      · simp [argsLoop] at he
      · simp [argsLoop] at hm
    | error r v hr =>
      cases hr with
      | nil =>
        refine ⟨fun leafv hl => ?_, fun e' he => ?_, fun m hm => ?_⟩
        · simp only [argsLoop, Except.ok.injEq, Sum.inl.injEq] at hl
          exact ⟨hc, _, rfl, hl.symm⟩
        · simp [argsLoop] at he
        · simp [argsLoop] at hm
      | leaf s => exact ih _ _ (Sim_leaf n h hc e s hs)
      | addr a c0 v' ha hc0 hv =>
        have hca : hc[a]? = some c0 := by rw [hs.2.1 a ha]; exact hc0
        have := ih _ _ (Sim_copy n h hc e c0 v' hs hv)
        simp only [heapArgsLoop, argsLoop, hca]
        exact this

/-- The embedding of `E` over a heap and the embedding by value agree: on arguments that
stand for the same values both panic with the same message, or both return, the heap one
returning a reference that stands for the value the other returns, in a heap whose
earlier structs are unchanged. -/
theorem EHeap_refines_E (h : Heap) (stk : List Nat) (hargs : List HArg) (vargs : List Arg)
    (hrel : List.Forall₂ (ArgRepr h.length h) hargs vargs) :
    (∃ m, E stk vargs = .error m ∧ EHeap h stk hargs = .error m) ∨
    (∃ v h' r, E stk vargs = .ok v ∧ EHeap h stk hargs = .ok (h', r) ∧
      Repr h'.length h' r v ∧ ∀ a, a < h.length → h'[a]? = h[a]?) := by
  have hlen : hargs.length = vargs.length := hrel.length_eq
  by_cases h0 : vargs.length = 0
  · left
    have h0' : hargs.length = 0 := by omega
    exact ⟨"call to errors.E with no arguments", by simp [E, h0], by simp [EHeap, h0']⟩
  · have h0' : ¬ hargs.length = 0 := by omega
    have hne : vargs ≠ [] := by
      intro hv; rw [hv] at h0; exact h0 rfl
    have hsim0 : Sim h.length h (h ++ [(⟨"", 0, .nil, []⟩ : Cell)]) ⟨"", 0, .nil, []⟩ := by
      refine ⟨by simp, fun a ha => List.getElem?_append_left ha, ⟨"", 0, .nil, []⟩, by simp,
        rfl, rfl, rfl, rfl⟩
    obtain ⟨sl, sr, sp⟩ := heapArgsLoop_sim h.length h hargs vargs hrel _ _ hsim0
    cases hx : argsLoop vargs ⟨"", 0, .nil, []⟩ with
    | error m => exact absurd hx (sp m)
    | ok x =>
    cases x with
    | inl leafv =>
      have hloop : argsLoop vargs ⟨"", 0, .nil, []⟩ = .ok (.inl leafv) := hx
      right
      obtain ⟨hc', s, hh, rfl⟩ := sl leafv hloop
      have hfr := heapArgsLoop_frame h.length h.length (Nat.le_refl _) hargs _ _ _
        (by simp) (by
          intro c p hc hp
          simp only [List.getElem?_concat_length, Option.some.injEq] at hc
          subst hc; cases hp) hh
      refine ⟨.errorString s, hc', .leaf s, by simp [E, h0, hloop], by simp [EHeap, h0', hh],
        Repr.leaf s, fun a ha => ?_⟩
      rw [hfr.1 a ha, List.getElem?_append_left ha]
    | inr e' =>
      have hloop : argsLoop vargs ⟨"", 0, .nil, []⟩ = .ok (.inr e') := hx
      obtain ⟨hc', hh, hlt, hpre, c, hc0, h1, h2, h3, hcr⟩ := sr e' hloop
      cases c with
      | mk cop ck cerr ccs =>
      simp only at h1 h2 h3 hcr
      have hcell : (hc'.update h.length fun c => { c with callers := stk })[h.length]?
          = some ⟨cop, ck, cerr, stk⟩ := by
        rw [Heap.update_getElem?, if_pos rfl, hc0]; rfl
      have hpre2 : ∀ a, a < h.length →
          (hc'.update h.length fun c => { c with callers := stk })[a]? = h[a]? := by
        intro a ha
        rw [Heap.update_getElem?_of_ne _ _ _ _ (by omega)]; exact hpre a ha
      have hlt2 : h.length < (hc'.update h.length fun c => { c with callers := stk }).length := by
        rw [Heap.update_length]; exact hlt
      cases cerr with
      | nil =>
        right
        have hErr : e'.Err = .nil := hcr
        have hpop : e'.populateStack stk = .ok { e' with callers := stk } := by
          simp [Error.populateStack, hErr, error.asError]
        refine ⟨_, _, .addr h.length, E_of_populate stk vargs e' hne hloop hpop, ?_, ?_, hpre2⟩
        · simp only [EHeap, h0', if_false, hh, hcell]
        · have := Repr.addr h.length ⟨cop, ck, .nil, stk⟩ .nil hlt2 hcell Repr.nil
          simpa [built, hErr, h1, h2] using this
      | leaf s =>
        right
        have hErr : e'.Err = .errorString s := hcr
        have hpop : e'.populateStack stk = .ok { e' with callers := stk } := by
          simp [Error.populateStack, hErr, error.asError]
        refine ⟨_, _, .addr h.length, E_of_populate stk vargs e' hne hloop hpop, ?_, ?_, hpre2⟩
        · simp only [EHeap, h0', if_false, hh, hcell]
        · have := Repr.addr h.length ⟨cop, ck, .leaf s, stk⟩ _ hlt2 hcell (Repr.leaf s)
          simpa [built, hErr, h1, h2] using this
      | addr p =>
        obtain ⟨hp, cp, v', hcp, hErr, hv⟩ := hcr
        have hcp2 : (hc'.update h.length fun c => { c with callers := stk })[p]? = some cp := by
          rw [Heap.update_getElem?_of_ne _ _ _ _ (by omega)]; exact hcp
        cases hpl : populateLoop stk cp.callers (min stk.length cp.callers.length) 0 false with
        | error m =>
          left
          have hpop : e'.populateStack stk = .error m := by
            simp [Error.populateStack, hErr, error.asError, hpl]
          exact ⟨m, by simp [E, h0, hloop, hpop],
            by simp only [EHeap, h0', if_false, hh, hcell, hcp2, hpl]⟩
        | ok x =>
          right
          have hpop : e'.populateStack stk = .ok { e' with callers := stk } := by
            simp [Error.populateStack, hErr, error.asError, hpl]
          obtain ⟨hce, hcpn⟩ := heapNormalise_cells _ h.length p _ _ (by omega) hcell hcp2
          have hpre3 : ∀ a, a < h.length →
              (heapNormalise (hc'.update h.length fun c => { c with callers := stk })
                h.length p)[a]? = h[a]? := by
            intro a ha
            rw [heapNormalise_getElem?_of_ne _ _ _ _ (by omega) (by omega)]
            exact hpre2 a ha
          have hplt : p < (heapNormalise (hc'.update h.length fun c => { c with callers := stk })
              h.length p).length := by
            by_contra hge
            rw [List.getElem?_eq_none (by omega)] at hcpn
            cases hcpn
          refine ⟨_, _, .addr h.length, E_of_populate stk vargs e' hne hloop hpop, ?_, ?_, hpre3⟩
          · simp only [EHeap, h0', if_false, hh, hcell, hcp2, hpl]
          · have hv' := Repr_mono h.length _ h _ hpre3
              (Nat.le_of_lt (Nat.lt_trans hp hplt)) _ _ hv
            have hrp := Repr.addr p _ v' hplt hcpn hv'
            have := Repr.addr h.length _ _ (Nat.lt_trans hp hplt) hce hrp
            simpa [built, hErr, h1, h2] using this

end Errors
